import Mathlib

/-! Fibratus: handle interceptor and process state.

A shallow embedding of
* `pkg/kstream/interceptors/handle.go` (`handleInterceptor.Intercept`), and
* `pkg/ps/types/types_windows.go` (`PS.UUID`, `PS.AddModule`, `PS.FindModule`, ...),

Machine integers are natural numbers reduced modulo `2^w`; Go `error` values are
`Option Err` (`none` is `nil`); instants of `time.Time` are integers counting
nanoseconds since the Unix epoch.
-/

namespace Fibratus

/-! ## Errors -/

/-- Error values that can reach the caller of the interceptor. `ParameterNotFound` and
`TypeMismatch` are the typed errors of the parameter accessors,
`ErrCancelUpstreamKevent` is `kerrors.ErrCancelUpstreamKevent`, and `External` stands for
any failure reported by a collaborator (snapshotter, operating system). -/
inductive Err where
  | ParameterNotFound (name : String)
  | TypeMismatch (name : String)
  | ErrCancelUpstreamKevent
  | External (code : Nat)
deriving DecidableEq, Repr

/-! ## Event envelope (`kevent`, `kparams`, `ktypes`) -/

/-- Modelled from the spec: the closed enumeration `ktypes.Ktype` of event types, whose
declaration is not among the sources. Only `CreateHandle` and `CloseHandle` are
distinguished by the interceptor; every other category is `Other`. -/
inductive Ktype where
  | CreateHandle
  | CloseHandle
  | Other (id : Nat)
deriving DecidableEq, Repr

/-- Modelled from the spec: the dynamic value of a parameter (integer width variants,
hex-formatted integers, strings). A `Hex` value is kept as the number it denotes. -/
inductive Value where
  | Uint8 (n : Nat)
  | Uint16 (n : Nat)
  | Uint32 (n : Nat)
  | Uint64 (n : Nat)
  | Hex (n : Nat)
  | Str (s : String)
deriving DecidableEq, Repr

/-- Modelled from the spec: the type tag `kparams.Type` stored next to a value. -/
inductive ParamType where
  | Uint8
  | Uint16
  | Uint32
  | Uint64
  | HexInt32
  | HexInt64
  | AnsiString
  | UnicodeString
deriving DecidableEq, Repr

/-- Modelled from the spec: one event parameter `kevent.Kparam`. -/
structure Kparam where
  Name : String
  Typ : ParamType
  Value : Value
deriving DecidableEq, Repr

/-- Modelled from the spec: `kevent.Kparams`, the mapping from parameter name to
parameter, kept as an association list. -/
abbrev Kparams := List Kparam

/-- The constant `kparams.HandleID`. The constants of package `kparams` are not among
the sources; only their being pairwise distinct matters below. -/
def kparams.HandleID : String := "handle_id"

/-- The constant `kparams.HandleObjectTypeID`. -/
def kparams.HandleObjectTypeID : String := "handle_object_type_id"

/-- The constant `kparams.HandleObject`. -/
def kparams.HandleObject : String := "handle_object"

/-- The constant `kparams.HandleObjectName`. -/
def kparams.HandleObjectName : String := "handle_object_name"

/-- The constant `kparams.HandleObjectTypeName`. -/
def kparams.HandleObjectTypeName : String := "handle_object_type_name"

/-- Modelled from the spec: lookup of a parameter by name; a missing parameter fails with
`ParameterNotFound`. -/
def Kparams.findParam (kpars : Kparams) (name : String) : Except Err Kparam :=
  match kpars.find? (fun p => decide (p.Name = name)) with
  | some p => .ok p
  | none => .error (.ParameterNotFound name)

/-- Modelled from the spec: typed accessor `Kparams.GetUint16`; a parameter of another
type fails with `TypeMismatch`. -/
def Kparams.GetUint16 (kpars : Kparams) (name : String) : Except Err Nat :=
  match kpars.findParam name with
  | .error e => .error e
  | .ok p =>
    match p.Value with
    | .Uint16 n => .ok (n % 2 ^ 16)
    | _ => .error (.TypeMismatch name)

/-- Modelled from the spec: typed accessor `Kparams.GetHexAsUint32`, the hex-formatted
parameter read as a 32-bit unsigned integer. -/
def Kparams.GetHexAsUint32 (kpars : Kparams) (name : String) : Except Err Nat :=
  match kpars.findParam name with
  | .error e => .error e
  | .ok p =>
    match p.Value with
    | .Hex n => .ok (n % 2 ^ 32)
    | _ => .error (.TypeMismatch name)

/-- Modelled from the spec: typed accessor `Kparams.GetHexAsUint64`. -/
def Kparams.GetHexAsUint64 (kpars : Kparams) (name : String) : Except Err Nat :=
  match kpars.findParam name with
  | .error e => .error e
  | .ok p =>
    match p.Value with
    | .Hex n => .ok (n % 2 ^ 64)
    | _ => .error (.TypeMismatch name)

/-- Modelled from the spec: typed accessor `Kparams.GetString`. -/
def Kparams.GetString (kpars : Kparams) (name : String) : Except Err String :=
  match kpars.findParam name with
  | .error e => .error e
  | .ok p =>
    match p.Value with
    | .Str s => .ok s
    | _ => .error (.TypeMismatch name)

/-- Replace the parameter stored under `name`. -/
def Kparams.replace (kpars : Kparams) (name : String) (typ : ParamType) (value : Value) :
    Kparams :=
  kpars.map (fun p => if p.Name = name then { Name := name, Typ := typ, Value := value } else p)

/-- Modelled from the spec: `Kparams.Set` replaces the value of an existing parameter and
fails when the parameter is missing. -/
def Kparams.Set (kpars : Kparams) (name : String) (value : Value) (typ : ParamType) :
    Except Err Kparams :=
  match kpars.findParam name with
  | .error e => .error e
  | .ok _ => .ok (kpars.replace name typ value)

/-- Modelled from the spec: `Kparams.Append` adds a parameter; on an existing key it
overwrites. -/
def Kparams.Append (kpars : Kparams) (name : String) (typ : ParamType) (value : Value) :
    Kparams :=
  match kpars.findParam name with
  | .error _ => kpars ++ [{ Name := name, Typ := typ, Value := value }]
  | .ok _ => kpars.replace name typ value

/-- Modelled from the spec: `Kparams.Remove` deletes a parameter; on a missing key it is
a no-op. -/
def Kparams.Remove (kpars : Kparams) (name : String) : Kparams :=
  kpars.filter (fun p => !decide (p.Name = name))

/-- Modelled from the spec: the event envelope `kevent.Kevent`. `Timestamp` is the
instant of the event in nanoseconds since the Unix epoch. -/
structure Kevent where
  Seq : Nat
  Typ : Ktype
  PID : Nat
  Tid : Nat
  Timestamp : Int
  Kparams : Kparams
deriving DecidableEq, Repr

/-! ## Collaborators of the handle interceptor -/

/-- Modelled from the spec: `handle.ObjectTypeStore`, the cache from numeric object-type
identifier to type name (the interface is declared outside the sources). -/
abbrev ObjectTypeStore := List (Nat × String)

/-- Modelled from the spec: `findByID(typeID)` answers the registered name, or the empty
string on a miss. -/
def ObjectTypeStore.FindByID (store : ObjectTypeStore) (id : Nat) : String :=
  match store.find? (fun p => decide (p.1 = id)) with
  | some p => p.2
  | none => ""

/-- Modelled from the spec: `registerType(typeID, name)`; registering an id already
present overwrites. -/
def ObjectTypeStore.RegisterType (store : ObjectTypeStore) (id : Nat) (name : String) :
    ObjectTypeStore :=
  (id, name) :: store.filter (fun p => !decide (p.1 = id))

/-- The object type name `handle.Key`. -/
def handle.Key : String := "Key"

/-- The object type name `handle.File`. -/
def handle.File : String := "File"

/-- The object type name `handle.Desktop`. -/
def handle.Desktop : String := "Desktop"

/-- The object type name `handle.SymbolicLink`. -/
def handle.SymbolicLink : String := "SymbolicLink"

/-- Modelled from the spec: `registry.Key`, a well-known registry root key, with the
distinguished value `InvalidKey`. -/
inductive registry.Key where
  | InvalidKey
  | ClassesRoot
  | CurrentUser
  | LocalMachine
  | Users
  | CurrentConfig
deriving DecidableEq, Repr

/-- Modelled from the spec: `registry.Key.String`, the display name of a root key. -/
def registry.Key.String : registry.Key → String
  | .InvalidKey => "Unknown"
  | .ClassesRoot => "HKEY_CLASSES_ROOT"
  | .CurrentUser => "HKEY_CURRENT_USER"
  | .LocalMachine => "HKEY_LOCAL_MACHINE"
  | .Users => "HKEY_USERS"
  | .CurrentConfig => "HKEY_CURRENT_CONFIG"

/-- Access mask handed to `handle.Duplicate`; `AllAccess` is `syshandle.AllAccess`. -/
inductive syshandle.Access where
  | AllAccess
  | Mask (bits : Nat)
deriving DecidableEq, Repr

/-- Requests issued to the operating system while resolving an object type. The log of
these requests is ghost state: it records which calls `Intercept` made. -/
inductive Syscall where
  | Duplicate (handle : Nat) (pid : Nat) (access : syshandle.Access)
  | QueryType (dup : Nat)
  | Close (dup : Nat)
deriving DecidableEq, Repr

/-- Everything `Intercept` reaches through an interface or a package that is not part of
the sources, taken as parameters: the snapshotter `hsnap` (acting on a snapshot state
`σ`), the device mapper, `handle.FormatKey`, the OS calls `handle.Duplicate` and
`handle.QueryType`, and the clock: `Now kobj` is the reading `time.Now()` gives when the
sweep examines the pending entry of object address `kobj`. -/
structure Env (σ : Type) where
  Write : σ → Kevent → σ × Option Err
  Remove : σ → Kevent → σ × Option Err
  Convert : String → String
  FormatKey : String → registry.Key × String
  Duplicate : Nat → Nat → syshandle.Access → Except Err Nat
  QueryType : Nat → Except Err String
  Now : Nat → Int

/-! ## The handle interceptor (`handle.go`) -/

/-- The interval `waitPeriod = time.Second * 5`, in nanoseconds. -/
def waitPeriod : Int := 1000000000 * 5

/-- The state of `handleInterceptor`: the snapshot behind `hsnap`, the content of
`typeStore`, the map `defers` (object address to pending event), the events sent so far
on the channel `deferredKevts` (oldest first; a send is taken to complete), the two
`expvar` counters, and the ghost log of OS requests. -/
structure handleInterceptor (σ : Type) where
  hsnap : σ
  typeStore : ObjectTypeStore
  defers : List (Nat × Kevent)
  deferredKevts : List Kevent
  handleDeferEvictions : Nat
  handleDeferMatches : Nat
  syscalls : List Syscall

/-- The Go map read `h.defers[object]`. -/
def defersLookup (defers : List (Nat × Kevent)) (object : Nat) : Option Kevent :=
  match defers.find? (fun p => decide (p.1 = object)) with
  | some p => some p.2
  | none => none

/-- The Go map deletion `delete(h.defers, object)`. -/
def defersDelete (defers : List (Nat × Kevent)) (object : Nat) : List (Nat × Kevent) :=
  defers.filter (fun p => !decide (p.1 = object))

/-- The Go map write `h.defers[object] = kevt`. -/
def defersStore (defers : List (Nat × Kevent)) (object : Nat) (kevt : Kevent) :
    List (Nat × Kevent) :=
  (object, kevt) :: defersDelete defers object

/-- The constructor `newHandleInterceptor`: an empty `defers` map. -/
def newHandleInterceptor {σ : Type} (hsnap : σ) (typeStore : ObjectTypeStore)
    (deferredKevts : List Kevent) : handleInterceptor σ :=
  { hsnap := hsnap, typeStore := typeStore, defers := [], deferredKevts := deferredKevts,
    handleDeferEvictions := 0, handleDeferMatches := 0, syscalls := [] }

/-- What `Intercept` returns, `(kevt, continue, err)`, together with the interceptor
state it leaves behind. -/
structure Outcome (σ : Type) where
  h : handleInterceptor σ
  kevt : Kevent
  cont : Bool
  err : Option Err

/-- Lines 63-66 of `Intercept`: the handle identifier is read as hex and, when that
succeeds, stored back as a `Uint32`; the error of `Set` is discarded. -/
def normalizeHandleID (kevt : Kevent) : Kevent :=
  match kevt.Kparams.GetHexAsUint32 kparams.HandleID with
  | .error _ => kevt
  | .ok handleID =>
    match kevt.Kparams.Set kparams.HandleID (.Uint32 handleID) .Uint32 with
    | .error _ => kevt
    | .ok kpars => { kevt with Kparams := kpars }

/-- Lines 77-93 of `Intercept`: map the object type identifier to its name, asking the
OS when the store has no name for it. The deferred `dup.Close()` is logged right after
the type query, on success and on failure alike. -/
def resolveType {σ : Type} (env : Env σ) (h : handleInterceptor σ) (kevt : Kevent)
    (typeID : Nat) : Except (handleInterceptor σ × Err) (handleInterceptor σ × String) :=
  let typeName := h.typeStore.FindByID (typeID % 2 ^ 8)
  if typeName = "" then
    match kevt.Kparams.GetHexAsUint32 kparams.HandleID with
    | .error err => .error (h, err)
    | .ok rawHandle =>
      let h1 := { h with syscalls := h.syscalls ++ [.Duplicate rawHandle kevt.PID .AllAccess] }
      match env.Duplicate rawHandle kevt.PID .AllAccess with
      | .error err => .error (h1, err)
      | .ok dup =>
        let h2 := { h1 with syscalls := h1.syscalls ++ [.QueryType dup, .Close dup] }
        match env.QueryType dup with
        | .error err => .error (h2, err)
        | .ok typeName =>
          .ok ({ h2 with typeStore := h2.typeStore.RegisterType (typeID % 2 ^ 8) typeName },
            typeName)
  else .ok (h, typeName)

/-- Lines 104-116 of `Intercept`: the best possible object name according to the type. -/
def canonicalName {σ : Type} (env : Env σ) (typeName : String) (name : String) : String :=
  if typeName = handle.Key then
    let (rootKey, keyName) := env.FormatKey name
    if rootKey = registry.Key.InvalidKey then name
    else if keyName ≠ "" then rootKey.String ++ "\\" ++ keyName
    else rootKey.String
  else if typeName = handle.File then env.Convert name
  else name

/-- The values lines 63-121 of `Intercept` hand to the rest of the function: the event
as mutated so far, the object address, the type name and the formatted name. -/
structure Enriched (σ : Type) where
  h : handleInterceptor σ
  kevt : Kevent
  object : Nat
  typeName : String
  name : String

/-- Lines 63-121 of `Intercept`: decode the parameters, resolve the type and assign the
formatted handle name. Every early return of this part is `(kevt, true, err)`. -/
def enrich {σ : Type} (env : Env σ) (h : handleInterceptor σ) (kevt : Kevent) :
    Except (Outcome σ) (Enriched σ) :=
  let kevt := normalizeHandleID kevt
  match kevt.Kparams.GetUint16 kparams.HandleObjectTypeID with
  | .error err => .error ⟨h, kevt, true, some err⟩
  | .ok typeID =>
    match kevt.Kparams.GetHexAsUint64 kparams.HandleObject with
    | .error err => .error ⟨h, kevt, true, some err⟩
    | .ok object =>
      match resolveType env h kevt typeID with
      | .error (h1, err) => .error ⟨h1, kevt, true, some err⟩
      | .ok (h1, typeName) =>
        let kpars := kevt.Kparams.Append kparams.HandleObjectTypeName .AnsiString (.Str typeName)
        let kevt := { kevt with Kparams := kpars.Remove kparams.HandleObjectTypeID }
        match kevt.Kparams.GetString kparams.HandleObjectName with
        | .error err => .error ⟨h1, kevt, true, some err⟩
        | .ok name =>
          let name := canonicalName env typeName name
          match kevt.Kparams.Set kparams.HandleObjectName (.Str name) .AnsiString with
          | .error err => .error ⟨h1, kevt, true, some err⟩
          | .ok kpars =>
            .ok { h := h1, kevt := { kevt with Kparams := kpars }, object := object,
                  typeName := typeName, name := name }

/-- Line 163 of `Intercept`: `evict := kvt.Timestamp.Before(time.Now().Add(waitPeriod))`. -/
def evict (now : Int) (kvt : Kevent) : Bool :=
  decide (kvt.Timestamp < now + waitPeriod)

/-- Lines 162-168 of `Intercept`: drain the pending events marked by `evict`. -/
def sweep {σ : Type} (now : Nat → Int) (h : handleInterceptor σ) : handleInterceptor σ :=
  { h with
    defers := h.defers.filter (fun p => !evict (now p.1) p.2),
    handleDeferEvictions :=
      h.handleDeferEvictions + (h.defers.filter (fun p => evict (now p.1) p.2)).length }

/-- The method `handleInterceptor.Intercept`. -/
def handleInterceptor.Intercept {σ : Type} (env : Env σ) (h : handleInterceptor σ)
    (kevt : Kevent) : Outcome σ :=
  if kevt.Typ = Ktype.CreateHandle ∨ kevt.Typ = Ktype.CloseHandle then
    match enrich env h kevt with
    | .error out => out
    | .ok r =>
      if r.kevt.Typ = Ktype.CreateHandle then
        if r.name = "" ∧ (r.typeName = handle.Key ∨ r.typeName = handle.File ∨
            r.typeName = handle.Desktop ∨ r.typeName = handle.SymbolicLink) then
          ⟨{ r.h with defers := defersStore r.h.defers r.object r.kevt }, r.kevt, false,
            some Err.ErrCancelUpstreamKevent⟩
        else
          let w := env.Write r.h.hsnap r.kevt
          ⟨{ r.h with hsnap := w.1 }, r.kevt, false, w.2⟩
      else
        match defersLookup r.h.defers r.object with
        | some hkevt =>
          let h1 := { r.h with defers := defersDelete r.h.defers r.object }
          match hkevt.Kparams.Set kparams.HandleObjectName (.Str r.name) .AnsiString with
          | .error err => ⟨h1, r.kevt, true, some err⟩
          | .ok kpars =>
            let hkevt := { hkevt with Kparams := kpars }
            let h2 := { h1 with handleDeferMatches := h1.handleDeferMatches + 1,
                                deferredKevts := h1.deferredKevts ++ [hkevt] }
            let w := env.Write h2.hsnap hkevt
            match w.2 with
            | some _ =>
              let r1 := env.Remove w.1 r.kevt
              match r1.2 with
              | some err => ⟨{ h2 with hsnap := r1.1 }, r.kevt, false, some err⟩
              | none =>
                let r2 := env.Remove r1.1 r.kevt
                ⟨{ h2 with hsnap := r2.1 }, r.kevt, false, r2.2⟩
            | none =>
              let r2 := env.Remove w.1 r.kevt
              ⟨{ h2 with hsnap := r2.1 }, r.kevt, false, r2.2⟩
        | none =>
          let h1 := sweep env.Now r.h
          let r2 := env.Remove h1.hsnap r.kevt
          ⟨{ h1 with hsnap := r2.1 }, r.kevt, false, r2.2⟩
  else ⟨h, kevt, true, none⟩

/-! ## Process state (`types_windows.go`) -/

/-- The struct `Thread`. Values of type `kparams.Hex` are kept as the number they denote. -/
structure Thread where
  Tid : Nat
  Pid : Nat
  IOPrio : Nat
  BasePrio : Nat
  PagePrio : Nat
  UstackBase : Nat
  UstackLimit : Nat
  KstackBase : Nat
  KstackLimit : Nat
  Entrypoint : Nat
deriving DecidableEq, Repr

/-- The struct `Module`. -/
structure Module where
  Size : Nat
  Checksum : Nat
  Name : String
  BaseAddress : Nat
  DefaultBaseAddress : Nat
deriving DecidableEq, Repr

/-- Modelled from the spec: `htypes.Handle`, an OS object reference (numeric handle
value, type name, object name, owning PID); its declaration is not among the sources. -/
structure Handle where
  Num : Nat
  Type_ : String
  Name : String
  Pid : Nat
deriving DecidableEq, Repr

/-- The struct `PS`. The pointer `PE` is left out; the pointer `Parent` is kept next to the
struct in `PSObject`, and what the methods do to the lock `mu` is listed by the `Ops`
functions. The field `StartTime` holds `StartTime.UnixNano()`, a signed 64-bit integer. -/
structure PS where
  PID : Nat
  Ppid : Nat
  Name : String
  Comm : String
  Exe : String
  Cwd : String
  SID : String
  Args : List String
  SessionID : Nat
  Envs : List (String × String)
  Threads : List (Nat × Thread)
  Modules : List Module
  Handles : List Handle
  StartTime : Int
  uuid : Nat
deriving DecidableEq, Repr

/-- The operating system as one call of `PS.UUID` sees it: `bootid.Read()` (the same
value at both places it is read), the triple returned by
`windows.RtlGetNtVersionNumbers()`, `process.Open(process.QueryInformation, false, pid)`
and the eight bytes `process.QueryInfo` leaves in the buffer for
`process.SequenceNumberInformationClass`. -/
structure OS where
  bootidRead : Nat
  RtlGetNtVersionNumbers : Nat × Nat × Nat
  processOpen : Nat → Except Err Nat
  QueryInfo : Nat → Except Err (List Nat)

/-- The call `binary.BigEndian.Uint64(buf)` on a buffer of eight bytes. -/
def BigEndianUint64 (buf : List Nat) : Nat :=
  ((buf ++ List.replicate 8 0).take 8).foldl (fun acc b => acc * 256 + b % 256) 0

/-- The function `querySequenceNumber`. -/
def querySequenceNumber (os : OS) (pid : Nat) : Nat :=
  match os.processOpen pid with
  | .error _ => 0
  | .ok proc =>
    match os.QueryInfo proc with
    | .error _ => 0
    | .ok buf => BigEndianUint64 buf

/-- Conversion `uint64(x)` of a signed 64-bit integer. -/
def toUint64 (x : Int) : Nat := (x % 2 ^ 64).toNat

/-- The shift `x << 30` on `uint64`. -/
def shl30 (x : Nat) : Nat := (x <<< 30) % 2 ^ 64

/-- The method `PS.UUID`: the value returned and the process state with the cached
`uuid`. In Go `+` and `|` have the same precedence and associate to the left. -/
def PS.UUID (os : OS) (ps : PS) : PS × Nat :=
  if ps.uuid ≠ 0 then (ps, ps.uuid)
  else
    let uuid0 := ((shl30 os.bootidRead + ps.PID) % 2 ^ 64) ||| toUint64 ps.StartTime
    let maj := os.RtlGetNtVersionNumbers.1
    let patch := os.RtlGetNtVersionNumbers.2.2
    let uuid :=
      if maj ≥ 10 ∧ patch ≥ 1507 then
        let seqNum := querySequenceNumber os ps.PID
        if seqNum ≠ 0 then shl30 os.bootidRead ||| seqNum else uuid0
      else uuid0
    ({ ps with uuid := uuid }, uuid)

/-- The method `PS.FindModule`; `base` is `filepath.Base` of the Go standard library.
The result is the module found, or `none` for `nil`. -/
def PS.FindModule (base : String → String) (ps : PS) (name : String) : Option Module :=
  ps.Modules.find? (fun mod => decide (base mod.Name = name))

/-- The method `PS.AddModule`. -/
def PS.AddModule (base : String → String) (ps : PS) (mod : Module) : PS :=
  match ps.FindModule base mod.Name with
  | some _ => ps
  | none => { ps with Modules := ps.Modules ++ [mod] }

/-- The loop of `PS.RemoveModule` over the list of modules: the first module with the
given full path is cut out. -/
def removeModuleLoop (name : String) : List Module → List Module
  | [] => []
  | mod :: rest => if mod.Name = name then rest else mod :: removeModuleLoop name rest

/-- The method `PS.RemoveModule`. -/
def PS.RemoveModule (ps : PS) (name : String) : PS :=
  { ps with Modules := removeModuleLoop name ps.Modules }

/-- Whether a byte is a path separator on Windows (`os.IsPathSeparator`). -/
def isPathSeparator (c : Char) : Bool :=
  c = Char.ofNat 92 || c = Char.ofNat 47

/-- Length of a leading drive-letter volume name such as `C:`. -/
def volumeNameLen (path : List Char) : Nat :=
  match path with
  | c :: d :: _ => if d = Char.ofNat 58 ∧ c.isAlpha then 2 else 0
  | _ => 0

/-- The function `filepath.Base` of the Go standard library on Windows, for paths whose
volume name, if any, is a drive letter: trailing separators are stripped, the volume
name is thrown away and the last element is returned. -/
def filepathBase (path : String) : String :=
  if path = "" then "."
  else
    let stripped := (path.data.reverse.dropWhile isPathSeparator).reverse
    let noVolume := stripped.drop (volumeNameLen stripped)
    let last := (noVolume.reverse.takeWhile (fun c => !isPathSeparator c)).reverse
    if last = [] then "\\" else String.mk last

/-! ## Auxiliary notions used to state the properties -/

/-- Whether a parameter named `name` is present. -/
def Kparams.has (kpars : Kparams) (name : String) : Bool :=
  kpars.any (fun p => decide (p.Name = name))

/-- Every pending event carries an object-name parameter. -/
def PendingNamed {σ : Type} (h : handleInterceptor σ) : Prop :=
  ∀ p ∈ h.defers, p.2.Kparams.has kparams.HandleObjectName = true

/-- Feed a sequence of events to the interceptor, each with the collaborators as they
behave at that call, and keep the interceptor state. -/
def runIntercept {σ : Type} (h : handleInterceptor σ) (calls : List (Env σ × Kevent)) :
    handleInterceptor σ :=
  calls.foldl (fun st c => (st.Intercept c.1 c.2).h) h

/-- The interceptor state right after a pending event has been matched: the entry is
deleted, the match counted and the completed event sent. -/
def matchedState {σ : Type} (h : handleInterceptor σ) (object : Nat) (hkevt : Kevent) :
    handleInterceptor σ :=
  { h with defers := defersDelete h.defers object,
           handleDeferMatches := h.handleDeferMatches + 1,
           deferredKevts := h.deferredKevts ++ [hkevt] }

/-- The pending event with its object name set to `name`. -/
def withName (hkevt : Kevent) (name : String) : Kevent :=
  { hkevt with Kparams :=
      hkevt.Kparams.replace kparams.HandleObjectName ParamType.AnsiString (Value.Str name) }

/-! ## Sample collaborators, states and events -/

/-- The pair (PID, handle number) an event refers to, once its handle identifier has
been stored as a `Uint32`. -/
def handleOf (e : Kevent) : Option (Nat × Nat) :=
  match e.Kparams.findParam kparams.HandleID with
  | .error _ => none
  | .ok p =>
    match p.Value with
    | .Uint32 n => some (e.PID, n)
    | _ => none

/-- Sample collaborators: the snapshot is the list of open handles, `Write` adds the
handle of the event and `Remove` deletes it; the OS would answer every type query with
`Key`; the clock reads 10 s. -/
def sampleEnv : Env (List (Nat × Nat)) :=
  { Write := fun s e =>
      match handleOf e with
      | some k => (s ++ [k], none)
      | none => (s, some (Err.External 1)),
    Remove := fun s e =>
      match handleOf e with
      | some k => (s.filter (fun x => !decide (x = k)), none)
      | none => (s, some (Err.External 2)),
    Convert := fun name => name,
    FormatKey := fun name => (registry.Key.InvalidKey, name),
    Duplicate := fun _ _ _ => .ok 99,
    QueryType := fun _ => .ok handle.Key,
    Now := fun _ => 10000000000 }

/-- Sample collaborators with a snapshotter that cannot write (the owning process is
unknown to it) and whose `Remove` reports a handle that is not in the snapshot. -/
def strictEnv : Env (List (Nat × Nat)) :=
  { sampleEnv with
    Write := fun s _ => (s, some (Err.External 1)),
    Remove := fun s e =>
      match handleOf e with
      | some k =>
        if s.contains k then (s.filter (fun x => !decide (x = k)), none)
        else (s, some (Err.External 2))
      | none => (s, some (Err.External 2)) }

/-- A CreateHandle event of process 4 for handle `0x1c`, object type 7, object address
`0x1000`, without a name, observed at 9 s. -/
def sampleCreate : Kevent :=
  { Seq := 1, Typ := Ktype.CreateHandle, PID := 4, Tid := 8, Timestamp := 9000000000,
    Kparams := [⟨kparams.HandleID, ParamType.HexInt32, Value.Hex 28⟩,
                ⟨kparams.HandleObjectTypeID, ParamType.Uint16, Value.Uint16 7⟩,
                ⟨kparams.HandleObject, ParamType.HexInt64, Value.Hex 4096⟩,
                ⟨kparams.HandleObjectName, ParamType.UnicodeString, Value.Str ""⟩] }

/-- The event `sampleCreate` as `Intercept` leaves it when type 7 is known as `File`. -/
def sampleCreateEnriched : Kevent :=
  { Seq := 1, Typ := Ktype.CreateHandle, PID := 4, Tid := 8, Timestamp := 9000000000,
    Kparams := [⟨kparams.HandleID, ParamType.Uint32, Value.Uint32 28⟩,
                ⟨kparams.HandleObject, ParamType.HexInt64, Value.Hex 4096⟩,
                ⟨kparams.HandleObjectName, ParamType.AnsiString, Value.Str ""⟩,
                ⟨kparams.HandleObjectTypeName, ParamType.AnsiString, Value.Str "File"⟩] }

/-- A CreateHandle event like `sampleCreate`, but carrying a name. -/
def sampleCreateNamed : Kevent :=
  { Seq := 3, Typ := Ktype.CreateHandle, PID := 4, Tid := 8, Timestamp := 9000000000,
    Kparams := [⟨kparams.HandleID, ParamType.HexInt32, Value.Hex 28⟩,
                ⟨kparams.HandleObjectTypeID, ParamType.Uint16, Value.Uint16 7⟩,
                ⟨kparams.HandleObject, ParamType.HexInt64, Value.Hex 4096⟩,
                ⟨kparams.HandleObjectName, ParamType.UnicodeString, Value.Str "report.txt"⟩] }

/-- The event `sampleCreateNamed` as `Intercept` leaves it. -/
def sampleCreateNamedEnriched : Kevent :=
  { Seq := 3, Typ := Ktype.CreateHandle, PID := 4, Tid := 8, Timestamp := 9000000000,
    Kparams := [⟨kparams.HandleID, ParamType.Uint32, Value.Uint32 28⟩,
                ⟨kparams.HandleObject, ParamType.HexInt64, Value.Hex 4096⟩,
                ⟨kparams.HandleObjectName, ParamType.AnsiString, Value.Str "report.txt"⟩,
                ⟨kparams.HandleObjectTypeName, ParamType.AnsiString, Value.Str "File"⟩] }

/-- The CloseHandle event for the same handle and object, carrying the name. -/
def sampleClose : Kevent :=
  { Seq := 2, Typ := Ktype.CloseHandle, PID := 4, Tid := 8, Timestamp := 9500000000,
    Kparams := [⟨kparams.HandleID, ParamType.HexInt32, Value.Hex 28⟩,
                ⟨kparams.HandleObjectTypeID, ParamType.Uint16, Value.Uint16 7⟩,
                ⟨kparams.HandleObject, ParamType.HexInt64, Value.Hex 4096⟩,
                ⟨kparams.HandleObjectName, ParamType.UnicodeString, Value.Str "report.txt"⟩] }

/-- The event `sampleClose` as `Intercept` leaves it. -/
def sampleCloseEnriched : Kevent :=
  { Seq := 2, Typ := Ktype.CloseHandle, PID := 4, Tid := 8, Timestamp := 9500000000,
    Kparams := [⟨kparams.HandleID, ParamType.Uint32, Value.Uint32 28⟩,
                ⟨kparams.HandleObject, ParamType.HexInt64, Value.Hex 4096⟩,
                ⟨kparams.HandleObjectName, ParamType.AnsiString, Value.Str "report.txt"⟩,
                ⟨kparams.HandleObjectTypeName, ParamType.AnsiString, Value.Str "File"⟩] }

/-- A CloseHandle event of process 4 for another handle, `0x20`, and another object,
`0x2000`. -/
def sampleCloseOther : Kevent :=
  { Seq := 4, Typ := Ktype.CloseHandle, PID := 4, Tid := 8, Timestamp := 9900000000,
    Kparams := [⟨kparams.HandleID, ParamType.HexInt32, Value.Hex 32⟩,
                ⟨kparams.HandleObjectTypeID, ParamType.Uint16, Value.Uint16 7⟩,
                ⟨kparams.HandleObject, ParamType.HexInt64, Value.Hex 8192⟩,
                ⟨kparams.HandleObjectName, ParamType.UnicodeString, Value.Str "notes.txt"⟩] }

/-- An event of another type, which the handle interceptor passes on. -/
def sampleOther : Kevent :=
  { Seq := 5, Typ := Ktype.Other 3, PID := 4, Tid := 8, Timestamp := 9200000000,
    Kparams := [] }

/-- A fresh interceptor whose type store knows type 7 as `File`. -/
def sampleState : handleInterceptor (List (Nat × Nat)) :=
  newHandleInterceptor [] [(7, handle.File)] []

/-- A fresh interceptor with an empty type store. -/
def emptyState : handleInterceptor (List (Nat × Nat)) :=
  newHandleInterceptor [] [] []

/-- A fresh interceptor over a snapshot that already lists handle `0x1c` of process 4. -/
def staleState : handleInterceptor (List (Nat × Nat)) :=
  newHandleInterceptor [(4, 28)] [(7, handle.File)] []

/-- The value the spec gives for `uuid(ps)`: boot identifier and sequence number when the
OS version supports the sequence number and the number queried is non-zero, boot
identifier, PID and start time otherwise; `<< 30` is multiplication by `2^30`, and every
operation is reduced modulo `2^64`. -/
def uuidSpec (os : OS) (ps : PS) : Nat :=
  if os.RtlGetNtVersionNumbers.1 ≥ 10 ∧ os.RtlGetNtVersionNumbers.2.2 ≥ 1507 ∧
      querySequenceNumber os ps.PID ≠ 0 then
    (os.bootidRead * 2 ^ 30 % 2 ^ 64) ||| querySequenceNumber os ps.PID
  else
    ((os.bootidRead * 2 ^ 30 % 2 ^ 64 + ps.PID) % 2 ^ 64) ||| (ps.StartTime % 2 ^ 64).toNat

/-- The module `kernel32.dll` with its full path. -/
def kernel32 : Module :=
  { Size := 770048, Checksum := 0, Name := "C:\\Windows\\System32\\kernel32.dll",
    BaseAddress := 140715000000000, DefaultBaseAddress := 140715000000000 }

/-- A process state of `cmd.exe` that has loaded `kernel32.dll`, started at
2021-01-01T00:00:00Z. -/
def samplePS : PS :=
  { PID := 4242, Ppid := 600, Name := "cmd.exe", Comm := "cmd.exe /c dir",
    Exe := "C:\\Windows\\System32\\cmd.exe", Cwd := "C:\\", SID := "S-1-5-18",
    Args := ["cmd.exe", "/c", "dir"], SessionID := 1, Envs := [], Threads := [],
    Modules := [kernel32], Handles := [], StartTime := 1609459200000000000, uuid := 0 }

/-- The process state of the idle process, PID 0, with its start time at the Unix
epoch. -/
def idlePS : PS :=
  { PID := 0, Ppid := 0, Name := "Idle", Comm := "", Exe := "", Cwd := "", SID := "",
    Args := [], SessionID := 0, Envs := [], Threads := [], Modules := [], Handles := [],
    StartTime := 0, uuid := 0 }

/-- Windows 10 build 19041 with boot identifier 0, refusing to open the process. -/
def deniedOS : OS :=
  { bootidRead := 0, RtlGetNtVersionNumbers := (10, 0, 19041),
    processOpen := fun _ => .error (Err.External 5),
    QueryInfo := fun _ => .ok [0, 0, 0, 0, 0, 0, 0, 5] }

/-- The same host, now opening the process and reporting sequence number 5. -/
def grantedOS : OS :=
  { bootidRead := 0, RtlGetNtVersionNumbers := (10, 0, 19041),
    processOpen := fun _ => .ok 1,
    QueryInfo := fun _ => .ok [0, 0, 0, 0, 0, 0, 0, 5] }

/-- Windows 7 (build 7601) with boot identifier 3. -/
def legacyOS : OS :=
  { bootidRead := 3, RtlGetNtVersionNumbers := (6, 1, 7601),
    processOpen := fun _ => .ok 1,
    QueryInfo := fun _ => .ok [0, 0, 0, 0, 0, 0, 0, 5] }

/-- Whether an error is one of the typed errors of the parameter accessors. -/
def Err.isDecode : Err → Bool
  | .ParameterNotFound _ => true
  | .TypeMismatch _ => true
  | _ => false

/-- The parameters of an event after lines 95-96 of `Intercept`: the type name is
appended and the type identifier removed. -/
def typedParams (kevt : Kevent) (typeName : String) : Kparams :=
  ((normalizeHandleID kevt).Kparams.Append kparams.HandleObjectTypeName ParamType.AnsiString
    (Value.Str typeName)).Remove kparams.HandleObjectTypeID

/-- A sample `handle.FormatKey`: names under `\Registry\Machine` belong to the root key
`HKEY_LOCAL_MACHINE`; every other name has no valid root key. -/
def sampleFormatKey (name : String) : registry.Key × String :=
  if "\\Registry\\Machine\\".data.isPrefixOf name.data then
    (registry.Key.LocalMachine, String.mk (name.data.drop 18))
  else if name = "\\Registry\\Machine" then (registry.Key.LocalMachine, "")
  else (registry.Key.InvalidKey, name)

/-- The sample collaborators with `sampleFormatKey` for registry names. -/
def registryEnv : Env (List (Nat × Nat)) :=
  { sampleEnv with FormatKey := sampleFormatKey }

/-- A fresh interceptor whose type store knows type 7 as `File` and type 9 as `Key`. -/
def keyState : handleInterceptor (List (Nat × Nat)) :=
  newHandleInterceptor [] [(7, handle.File), (9, handle.Key)] []

/-- A CloseHandle event of process 4 for a registry key named
`\Registry\Machine\Software`. -/
def sampleCloseKey : Kevent :=
  { Seq := 6, Typ := Ktype.CloseHandle, PID := 4, Tid := 8, Timestamp := 9600000000,
    Kparams := [⟨kparams.HandleID, ParamType.HexInt32, Value.Hex 36⟩,
                ⟨kparams.HandleObjectTypeID, ParamType.Uint16, Value.Uint16 9⟩,
                ⟨kparams.HandleObject, ParamType.HexInt64, Value.Hex 12288⟩,
                ⟨kparams.HandleObjectName, ParamType.UnicodeString,
                  Value.Str "\\Registry\\Machine\\Software"⟩] }

/-- The event `sampleCloseKey` as `Intercept` leaves it under `registryEnv`. -/
def sampleCloseKeyEnriched : Kevent :=
  { Seq := 6, Typ := Ktype.CloseHandle, PID := 4, Tid := 8, Timestamp := 9600000000,
    Kparams := [⟨kparams.HandleID, ParamType.Uint32, Value.Uint32 36⟩,
                ⟨kparams.HandleObject, ParamType.HexInt64, Value.Hex 12288⟩,
                ⟨kparams.HandleObjectName, ParamType.AnsiString,
                  Value.Str "HKEY_LOCAL_MACHINE\\Software"⟩,
                ⟨kparams.HandleObjectTypeName, ParamType.AnsiString, Value.Str "Key"⟩] }

/-- A CreateHandle event whose object-name parameter is missing. -/
def sampleCreateNoName : Kevent :=
  { Seq := 7, Typ := Ktype.CreateHandle, PID := 4, Tid := 8, Timestamp := 9700000000,
    Kparams := [⟨kparams.HandleID, ParamType.HexInt32, Value.Hex 40⟩,
                ⟨kparams.HandleObjectTypeID, ParamType.Uint16, Value.Uint16 7⟩,
                ⟨kparams.HandleObject, ParamType.HexInt64, Value.Hex 16384⟩] }

/-- The invariant of the deferred map: every pending event is a CreateHandle event, is
stored under its own object address, has an empty object name, and has one of the type
names Key, File, Desktop, SymbolicLink. -/
def DefersInv {σ : Type} (h : handleInterceptor σ) : Prop :=
  ∀ p ∈ h.defers,
    p.2.Typ = Ktype.CreateHandle ∧
    p.2.Kparams.GetHexAsUint64 kparams.HandleObject = .ok p.1 ∧
    p.2.Kparams.GetString kparams.HandleObjectName = .ok "" ∧
    (p.2.Kparams.GetString kparams.HandleObjectTypeName = .ok handle.Key ∨
      p.2.Kparams.GetString kparams.HandleObjectTypeName = .ok handle.File ∨
      p.2.Kparams.GetString kparams.HandleObjectTypeName = .ok handle.Desktop ∨
      p.2.Kparams.GetString kparams.HandleObjectTypeName = .ok handle.SymbolicLink)

/-- The events sent on the deferred-events channel while `calls` are processed from
state `h`. -/
def emittedBy {σ : Type} (h : handleInterceptor σ) (calls : List (Env σ × Kevent)) :
    List Kevent :=
  (runIntercept h calls).deferredKevts.drop h.deferredKevts.length

/-! ## Threads and handles of a process, locking, ancestry -/

/-- The method `PS.AddThread`: the map write `ps.Threads[thread.Tid] = thread`. -/
def PS.AddThread (ps : PS) (thread : Thread) : PS :=
  { ps with Threads :=
      (thread.Tid, thread) :: ps.Threads.filter (fun p => !decide (p.1 = thread.Tid)) }

/-- The method `PS.RemoveThread`: the map deletion `delete(ps.Threads, tid)`. -/
def PS.RemoveThread (ps : PS) (tid : Nat) : PS :=
  { ps with Threads := ps.Threads.filter (fun p => !decide (p.1 = tid)) }

/-- The method `PS.AddHandle`. -/
def PS.AddHandle (ps : PS) (handle : Handle) : PS :=
  { ps with Handles := ps.Handles ++ [handle] }

/-- The loop of `PS.RemoveHandle`, `for i, h := range ps.Handles`: `i` is the index
reached and `rest` the handles from that index on; at the first handle with the given
number the list becomes `append(ps.Handles[:i], ps.Handles[i+1:]...)` and the loop is
left. -/
def removeHandleLoop (handles : List Handle) (num : Nat) : Nat → List Handle → List Handle
  | _, [] => handles
  | i, h :: rest =>
    if h.Num = num then handles.take i ++ handles.drop (i + 1)
    else removeHandleLoop handles num (i + 1) rest

/-- The method `PS.RemoveHandle`. -/
def PS.RemoveHandle (ps : PS) (num : Nat) : PS :=
  { ps with Handles := removeHandleLoop ps.Handles num 0 ps.Handles }

/-- The collections of a process state that the lock `mu` is there to guard. -/
inductive Collection where
  | Threads
  | Handles
  | Modules
deriving DecidableEq, Repr

/-- What a method does to the lock `ps.mu` and to the collections, in program order. -/
inductive MemOp where
  | Lock
  | Unlock
  | Read (c : Collection)
  | Write (c : Collection)
deriving DecidableEq, Repr

/-- The steps of `PS.AddThread`: `ps.mu.Lock()`, the map write, and the deferred
`ps.mu.Unlock()`. -/
def PS.AddThreadOps (_ps : PS) (_thread : Thread) : List MemOp :=
  [MemOp.Lock, MemOp.Write Collection.Threads, MemOp.Unlock]

/-- The steps of `PS.RemoveThread`: `ps.mu.Lock()`, the map deletion, and the deferred
`ps.mu.Unlock()`. -/
def PS.RemoveThreadOps (_ps : PS) (_tid : Nat) : List MemOp :=
  [MemOp.Lock, MemOp.Write Collection.Threads, MemOp.Unlock]

/-- The steps of `PS.AddHandle`: the slice is read and the appended slice assigned. -/
def PS.AddHandleOps (_ps : PS) (_handle : Handle) : List MemOp :=
  [MemOp.Read Collection.Handles, MemOp.Write Collection.Handles]

/-- The steps of `PS.RemoveHandle`: the slice is ranged over and, when a handle with the
number is found, the shortened slice assigned. -/
def PS.RemoveHandleOps (ps : PS) (num : Nat) : List MemOp :=
  if ps.Handles.any (fun h => decide (h.Num = num)) then
    [MemOp.Read Collection.Handles, MemOp.Write Collection.Handles]
  else [MemOp.Read Collection.Handles]

/-- The steps of `PS.AddModule`: `FindModule` ranges over the modules and, when it finds
nothing, the appended slice is assigned. -/
def PS.AddModuleOps (base : String → String) (ps : PS) (mod : Module) : List MemOp :=
  match ps.FindModule base mod.Name with
  | some _ => [MemOp.Read Collection.Modules]
  | none => [MemOp.Read Collection.Modules, MemOp.Write Collection.Modules]

/-- The steps of `PS.RemoveModule`: the slice is ranged over and, when a module with the
name is found, the shortened slice assigned. -/
def PS.RemoveModuleOps (ps : PS) (name : String) : List MemOp :=
  if ps.Modules.any (fun m => decide (m.Name = name)) then
    [MemOp.Read Collection.Modules, MemOp.Write Collection.Modules]
  else [MemOp.Read Collection.Modules]

/-- Whether every write in a sequence of steps happens while the exclusive lock is held;
`held` tells whether the lock is held before the first step. -/
def writesGuarded : Bool → List MemOp → Bool
  | _, [] => true
  | _, MemOp.Lock :: rest => writesGuarded true rest
  | _, MemOp.Unlock :: rest => writesGuarded false rest
  | held, MemOp.Read _ :: rest => writesGuarded held rest
  | held, MemOp.Write _ :: rest => held && writesGuarded held rest

/-- Modelled from the spec: whether an access mask asks for query rights only, the bits
of the query rights being `queryRights`. `syshandle.AllAccess` asks for every right and
is not query-only. -/
def syshandle.Access.queryOnly (queryRights : Nat) : syshandle.Access → Bool
  | .AllAccess => false
  | .Mask bits => bits &&& queryRights == bits

/-- The interceptor state that lines 77-93 of `Intercept` leave behind. -/
def resolveTypeState {σ : Type} (env : Env σ) (h : handleInterceptor σ) (kevt : Kevent)
    (typeID : Nat) : handleInterceptor σ :=
  match resolveType env h kevt typeID with
  | .ok (h1, _) => h1
  | .error (h1, _) => h1

/-- A process state in memory: the struct `PS` together with its pointer `Parent`, the
address of the parent's process state (`none` for `nil`). -/
structure PSObject where
  ps : PS
  Parent : Option Nat
deriving DecidableEq, Repr

/-- The process states in memory, by address. -/
abbrev PSHeap := List (Nat × PSObject)

/-- The process state stored at an address. -/
def PSHeap.deref (heap : PSHeap) (addr : Nat) : Option PSObject :=
  match heap.find? (fun e => decide (e.1 = addr)) with
  | some e => some e.2
  | none => none

/-- Modelled from the spec: the loop of `Walk`, which is not among the sources. It walks
the parent chain, stops when a process state has no resolvable parent, and is bounded by
a visited-set check. The result is the list of process states the callback is invoked
on, or `none` when `fuel` steps do not suffice. -/
def walkLoop (heap : PSHeap) : Nat → List Nat → Option Nat → Option (List PS)
  | 0, _, _ => none
  | _ + 1, _, none => some []
  | fuel + 1, visited, some addr =>
    if addr ∈ visited then some []
    else
      match heap.deref addr with
      | none => some []
      | some obj =>
        match walkLoop heap fuel (addr :: visited) obj.Parent with
        | none => none
        | some procs => some (obj.ps :: procs)

/-- Modelled from the spec: `Walk(fn, ps)` on the process state at `addr`, listing the
process states `fn` is invoked on: the parents of `ps`, nearest first. -/
def Walk (heap : PSHeap) (fuel : Nat) (addr : Nat) : Option (List PS) :=
  match heap.deref addr with
  | none => some []
  | some obj => walkLoop heap fuel [addr] obj.Parent

/-- The method `PS.Ancestors` on the process state at `addr`: the callback appends
`fmt.Sprintf("%s (%d)", proc.Name, proc.PID)` for every process state `Walk` visits. -/
def PS.Ancestors (heap : PSHeap) (fuel : Nat) (addr : Nat) : Option (List String) :=
  match Walk heap fuel addr with
  | none => none
  | some procs => some (procs.map (fun proc => proc.Name ++ " (" ++ toString proc.PID ++ ")"))

/-- Three process states whose parent pointers form a cycle: `cmd.exe` (address 1) has
parent `explorer.exe` (address 2), whose parent is `winlogon.exe` (address 3), whose
parent pointer leads back to address 2 after PID reuse. -/
def cyclicHeap : PSHeap :=
  [(1, { ps := samplePS, Parent := some 2 }),
   (2, { ps := { samplePS with PID := 600, Ppid := 512, Name := "explorer.exe", Modules := [] },
         Parent := some 3 }),
   (3, { ps := { samplePS with PID := 512, Ppid := 600, Name := "winlogon.exe", Modules := [] },
         Parent := some 2 })]

/-- A handle record of process 4242. -/
def sampleHandle (num : Nat) (name : String) : Handle :=
  { Num := num, Type_ := handle.File, Name := name, Pid := 4242 }

/-- A second CreateHandle event for the object `0x1000`, again without a name, through
another handle `0x2c`. -/
def sampleCreateAgain : Kevent :=
  { Seq := 8, Typ := Ktype.CreateHandle, PID := 4, Tid := 8, Timestamp := 9300000000,
    Kparams := [⟨kparams.HandleID, ParamType.HexInt32, Value.Hex 44⟩,
                ⟨kparams.HandleObjectTypeID, ParamType.Uint16, Value.Uint16 7⟩,
                ⟨kparams.HandleObject, ParamType.HexInt64, Value.Hex 4096⟩,
                ⟨kparams.HandleObjectName, ParamType.UnicodeString, Value.Str ""⟩] }

/-- The event `sampleCreateAgain` as `Intercept` leaves it. -/
def sampleCreateAgainEnriched : Kevent :=
  { Seq := 8, Typ := Ktype.CreateHandle, PID := 4, Tid := 8, Timestamp := 9300000000,
    Kparams := [⟨kparams.HandleID, ParamType.Uint32, Value.Uint32 44⟩,
                ⟨kparams.HandleObject, ParamType.HexInt64, Value.Hex 4096⟩,
                ⟨kparams.HandleObjectName, ParamType.AnsiString, Value.Str ""⟩,
                ⟨kparams.HandleObjectTypeName, ParamType.AnsiString, Value.Str "File"⟩] }

/-- The event `sampleCloseOther` as `Intercept` leaves it. -/
def sampleCloseOtherEnriched : Kevent :=
  { Seq := 4, Typ := Ktype.CloseHandle, PID := 4, Tid := 8, Timestamp := 9900000000,
    Kparams := [⟨kparams.HandleID, ParamType.Uint32, Value.Uint32 32⟩,
                ⟨kparams.HandleObject, ParamType.HexInt64, Value.Hex 8192⟩,
                ⟨kparams.HandleObjectName, ParamType.AnsiString, Value.Str "notes.txt"⟩,
                ⟨kparams.HandleObjectTypeName, ParamType.AnsiString, Value.Str "File"⟩] }

/-- The method `Thread.String`, the format of line 183 with its arguments in the order
they are passed; `hex` gives the text of a `kparams.Hex` value, which `%s` prints. -/
def Thread.String (hex : Nat → String) (t : Thread) : String :=
  "ID: " ++ toString t.Tid ++ " IO prio: " ++ toString t.IOPrio ++
  ", Base prio: " ++ toString t.BasePrio ++ ", Page prio: " ++ toString t.PagePrio ++
  ", Ustack base: " ++ hex t.UstackBase ++ ", Ustack limit: " ++ hex t.UstackLimit ++
  ", Kstack base: " ++ hex t.KstackBase ++ ", Kstack limit: " ++ hex t.UstackLimit ++
  ", Entrypoint: " ++ hex t.Entrypoint

/-- A sample text of a `kparams.Hex` value: `0x` followed by the hexadecimal digits. -/
def sampleHex (n : Nat) : String :=
  "0x" ++ String.mk (Nat.toDigits 16 n)

/-- A thread whose user stack ends at `0x1000` and whose kernel stack ends at `0x2000`. -/
def sampleThread : Thread :=
  { Tid := 1, Pid := 4242, IOPrio := 2, BasePrio := 8, PagePrio := 5, UstackBase := 12288,
    UstackLimit := 4096, KstackBase := 20480, KstackLimit := 8192, Entrypoint := 24576 }

/-- A CloseHandle event like `sampleClose` whose object type identifier is 263, which
has the same low eight bits as 7. -/
def sampleCloseWide : Kevent :=
  { Seq := 9, Typ := Ktype.CloseHandle, PID := 4, Tid := 8, Timestamp := 9500000000,
    Kparams := [⟨kparams.HandleID, ParamType.HexInt32, Value.Hex 28⟩,
                ⟨kparams.HandleObjectTypeID, ParamType.Uint16, Value.Uint16 263⟩,
                ⟨kparams.HandleObject, ParamType.HexInt64, Value.Hex 4096⟩,
                ⟨kparams.HandleObjectName, ParamType.UnicodeString, Value.Str "report.txt"⟩] }

/-- The event `sampleCloseWide` as `Intercept` leaves it. -/
def sampleCloseWideEnriched : Kevent :=
  { Seq := 9, Typ := Ktype.CloseHandle, PID := 4, Tid := 8, Timestamp := 9500000000,
    Kparams := [⟨kparams.HandleID, ParamType.Uint32, Value.Uint32 28⟩,
                ⟨kparams.HandleObject, ParamType.HexInt64, Value.Hex 4096⟩,
                ⟨kparams.HandleObjectName, ParamType.AnsiString, Value.Str "report.txt"⟩,
                ⟨kparams.HandleObjectTypeName, ParamType.AnsiString, Value.Str "File"⟩] }

/-! ## Parameter lemmas -/

theorem Kparams.findParam_of_has (kpars : Kparams) (name : String)
    (hp : kpars.has name = true) : ∃ p, kpars.findParam name = .ok p := by
  induction kpars with
  | nil => simp [Kparams.has] at hp
  | cons a rest ih =>
    by_cases ha : a.Name = name
    · exact ⟨a, by simp [Kparams.findParam, List.find?, ha]⟩
    · have hrest : Kparams.has rest name = true := by
        simpa [Kparams.has, ha] using hp
      obtain ⟨q, hq⟩ := ih hrest
      refine ⟨q, ?_⟩
      simp only [Kparams.findParam, List.find?, ha, decide_False] at hq ⊢
      exact hq

theorem Kparams.has_of_findParam (kpars : Kparams) (name : String) (p : Kparam)
    (hp : kpars.findParam name = .ok p) : kpars.has name = true := by
  induction kpars with
  | nil => simp [Kparams.findParam] at hp
  | cons a rest ih =>
    by_cases ha : a.Name = name
    · simp [Kparams.has, ha]
    · have : Kparams.findParam rest name = .ok p := by
        simp only [Kparams.findParam, List.find?, ha, decide_False] at hp ⊢
        exact hp
      have := ih this
      simp [Kparams.has, ha] at this ⊢
      exact this

theorem Kparams.has_replace (kpars : Kparams) (name other : String) (typ : ParamType)
    (value : Value) : (kpars.replace name typ value).has other = kpars.has other := by
  induction kpars with
  | nil => rfl
  | cons a rest ih =>
    simp only [Kparams.has, Kparams.replace, List.map_cons, List.any_cons] at ih ⊢
    rw [ih]
    by_cases ha : a.Name = name
    · simp [ha]
    · simp [ha]

theorem Kparams.Set_of_has (kpars : Kparams) (name : String) (value : Value)
    (typ : ParamType) (hp : kpars.has name = true) :
    kpars.Set name value typ = .ok (kpars.replace name typ value) := by
  obtain ⟨p, hp⟩ := Kparams.findParam_of_has kpars name hp
  simp [Kparams.Set, hp]

theorem Kparams.Set_ok (kpars kpars1 : Kparams) (name : String) (value : Value)
    (typ : ParamType) (hs : kpars.Set name value typ = .ok kpars1) :
    kpars1 = kpars.replace name typ value ∧ kpars1.has name = true := by
  unfold Kparams.Set at hs
  split at hs
  · simp at hs
  · rename_i q hq
    have h1 : kpars1 = kpars.replace name typ value := by
      simpa using hs.symm
    refine ⟨h1, ?_⟩
    rw [h1, Kparams.has_replace]
    exact Kparams.has_of_findParam kpars name q hq

/-! ## What the decoding part of `Intercept` leaves untouched -/

theorem normalizeHandleID_frame (kevt : Kevent) :
    (normalizeHandleID kevt).Typ = kevt.Typ ∧ (normalizeHandleID kevt).PID = kevt.PID ∧
    (normalizeHandleID kevt).Seq = kevt.Seq ∧
    (normalizeHandleID kevt).Timestamp = kevt.Timestamp := by
  unfold normalizeHandleID
  split
  · simp
  · split <;> simp

theorem resolveType_frame {σ : Type} (env : Env σ) (h h1 : handleInterceptor σ)
    (kevt : Kevent) (typeID : Nat) (typeName : String)
    (hr : resolveType env h kevt typeID = .ok (h1, typeName)) :
    h1.hsnap = h.hsnap ∧ h1.defers = h.defers ∧ h1.deferredKevts = h.deferredKevts ∧
    h1.handleDeferEvictions = h.handleDeferEvictions ∧
    h1.handleDeferMatches = h.handleDeferMatches := by
  unfold resolveType at hr
  simp only at hr
  split at hr
  · split at hr
    · simp at hr
    · split at hr
      · simp at hr
      · split at hr
        · simp at hr
        · simp only [Except.ok.injEq, Prod.mk.injEq] at hr
          obtain ⟨hh, -⟩ := hr
          subst hh
          simp
  · simp only [Except.ok.injEq, Prod.mk.injEq] at hr
    obtain ⟨hh, -⟩ := hr
    subst hh
    simp

theorem enrich_frame {σ : Type} (env : Env σ) (h : handleInterceptor σ) (kevt : Kevent)
    (r : Enriched σ) (hr : enrich env h kevt = .ok r) :
    r.kevt.Typ = kevt.Typ ∧ r.kevt.PID = kevt.PID ∧ r.kevt.Seq = kevt.Seq ∧
    r.kevt.Timestamp = kevt.Timestamp ∧
    r.h.hsnap = h.hsnap ∧ r.h.defers = h.defers ∧ r.h.deferredKevts = h.deferredKevts ∧
    r.kevt.Kparams.has kparams.HandleObjectName = true := by
  unfold enrich at hr
  simp only at hr
  split at hr
  · simp at hr
  · split at hr
    · simp at hr
    · split at hr
      · simp at hr
      · rename_i h1 typeName hres
        split at hr
        · simp at hr
        · split at hr
          · simp at hr
          · rename_i kpars hset
            simp only [Except.ok.injEq] at hr
            subst hr
            obtain ⟨f1, f2, f3, f4⟩ := normalizeHandleID_frame kevt
            obtain ⟨g1, g2, g3, -, -⟩ := resolveType_frame env h h1 _ _ typeName hres
            exact ⟨f1, f2, f3, f4, g1, g2, g3, (Kparams.Set_ok _ _ _ _ _ hset).2⟩

theorem Kparams.findParam_replace_ne (kpars : Kparams) (name other : String)
    (typ : ParamType) (value : Value) (hne : name ≠ other) :
    (kpars.replace name typ value).findParam other = kpars.findParam other := by
  induction kpars with
  | nil => rfl
  | cons a rest ih =>
    simp only [Kparams.findParam, Kparams.replace, List.map_cons] at ih ⊢
    by_cases ha : a.Name = name
    · have hao : ¬ a.Name = other := fun hc => hne (ha.symm.trans hc)
      simp only [ha, if_true, List.find?, hne, hao, decide_False]
      exact ih
    · by_cases hb : a.Name = other
      · have hon : ¬ other = name := fun hc => hne hc.symm
        simp only [ha, if_false, List.find?, hb, hon, decide_True]
      · simp only [ha, if_false, List.find?, hb, decide_False]
        exact ih

theorem normalizeHandleID_object (kevt : Kevent) :
    (normalizeHandleID kevt).Kparams.GetHexAsUint64 kparams.HandleObject =
      kevt.Kparams.GetHexAsUint64 kparams.HandleObject := by
  unfold normalizeHandleID
  split
  · rfl
  · split
    · rfl
    · rename_i kpars hset
      have hk := (Kparams.Set_ok _ _ _ _ _ hset).1
      simp only [Kparams.GetHexAsUint64, hk]
      rw [Kparams.findParam_replace_ne _ _ _ _ _ (by decide)]

theorem enrich_object {σ : Type} (env : Env σ) (h : handleInterceptor σ) (kevt : Kevent)
    (r : Enriched σ) (hr : enrich env h kevt = .ok r) :
    kevt.Kparams.GetHexAsUint64 kparams.HandleObject = .ok r.object := by
  rw [← normalizeHandleID_object]
  unfold enrich at hr
  simp only at hr
  split at hr
  · simp at hr
  · split at hr
    · simp at hr
    · rename_i object hobj
      split at hr
      · simp at hr
      · split at hr
        · simp at hr
        · split at hr
          · simp at hr
          · simp only [Except.ok.injEq] at hr
            subst hr
            exact hobj

/-! ## Invariant of the deferred map -/

theorem defersLookup_mem (defers : List (Nat × Kevent)) (object : Nat) (kevt : Kevent)
    (hl : defersLookup defers object = some kevt) : (object, kevt) ∈ defers := by
  unfold defersLookup at hl
  split at hl
  · rename_i p hp
    have hmem := List.mem_of_find?_eq_some hp
    have hkey := List.find?_some hp
    simp only [decide_eq_true_eq] at hkey
    simp only [Option.some.injEq] at hl
    have : p = (object, kevt) := by
      cases p
      simp_all
    rw [← this]
    exact hmem
  · simp at hl

theorem defersLookup_delete (defers : List (Nat × Kevent)) (object : Nat) :
    defersLookup (defersDelete defers object) object = none := by
  unfold defersLookup defersDelete
  have : List.find? (fun p => decide (p.1 = object))
      (List.filter (fun p => !decide (p.1 = object)) defers) = none := by
    rw [List.find?_eq_none]
    intro x hx
    simp only [List.mem_filter] at hx
    simpa using hx.2
  rw [this]

theorem defersLookup_store (defers : List (Nat × Kevent)) (object : Nat) (kevt : Kevent) :
    defersLookup (defersStore defers object kevt) object = some kevt := by
  simp [defersLookup, defersStore, List.find?]

theorem PendingNamed_new {σ : Type} (hsnap : σ) (typeStore : ObjectTypeStore)
    (deferredKevts : List Kevent) :
    PendingNamed (newHandleInterceptor hsnap typeStore deferredKevts) := by
  intro p hp
  simp [newHandleInterceptor] at hp

theorem resolveType_error_frame {σ : Type} (env : Env σ) (h h1 : handleInterceptor σ)
    (kevt : Kevent) (typeID : Nat) (err : Err)
    (hr : resolveType env h kevt typeID = .error (h1, err)) :
    h1.hsnap = h.hsnap ∧ h1.defers = h.defers ∧ h1.deferredKevts = h.deferredKevts ∧
    h1.typeStore = h.typeStore := by
  unfold resolveType at hr
  simp only at hr
  split at hr
  · split at hr
    · simp only [Except.error.injEq, Prod.mk.injEq] at hr
      obtain ⟨hh, -⟩ := hr
      subst hh
      simp
    · split at hr
      · simp only [Except.error.injEq, Prod.mk.injEq] at hr
        obtain ⟨hh, -⟩ := hr
        subst hh
        simp
      · split at hr
        · simp only [Except.error.injEq, Prod.mk.injEq] at hr
          obtain ⟨hh, -⟩ := hr
          subst hh
          simp
        · simp at hr
  · simp at hr

theorem enrich_error_frame {σ : Type} (env : Env σ) (h : handleInterceptor σ)
    (kevt : Kevent) (out : Outcome σ) (hr : enrich env h kevt = .error out) :
    out.h.hsnap = h.hsnap ∧ out.h.defers = h.defers ∧
    out.h.deferredKevts = h.deferredKevts ∧ out.cont = true ∧ out.err ≠ none := by
  unfold enrich at hr
  simp only at hr
  split at hr
  · simp only [Except.error.injEq] at hr
    subst hr
    simp
  · split at hr
    · simp only [Except.error.injEq] at hr
      subst hr
      simp
    · split at hr
      · rename_i h1 err hres
        simp only [Except.error.injEq] at hr
        subst hr
        obtain ⟨g1, g2, g3, -⟩ := resolveType_error_frame env h h1 _ _ err hres
        simp [g1, g2, g3]
      · rename_i h1 typeName hres
        obtain ⟨g1, g2, g3, -, -⟩ := resolveType_frame env h h1 _ _ typeName hres
        split at hr
        · simp only [Except.error.injEq] at hr
          subst hr
          simp [g1, g2, g3]
        · split at hr
          · simp only [Except.error.injEq] at hr
            subst hr
            simp [g1, g2, g3]
          · simp at hr

theorem PendingNamed_Intercept {σ : Type} (env : Env σ) (h : handleInterceptor σ)
    (kevt : Kevent) (hinv : PendingNamed h) : PendingNamed (h.Intercept env kevt).h := by
  unfold handleInterceptor.Intercept
  split
  · split
    · rename_i out hen
      obtain ⟨-, g2, -⟩ := enrich_error_frame env h kevt out hen
      intro p hp
      rw [g2] at hp
      exact hinv p hp
    · rename_i r hen
      obtain ⟨-, -, -, -, -, g2, -, g4⟩ := enrich_frame env h kevt r hen
      split
      · split
        · intro p hp
          simp only [defersStore, defersDelete, List.mem_cons, List.mem_filter] at hp
          rcases hp with hp | hp
          · rw [hp]
            exact g4
          · rw [g2] at hp
            exact hinv p hp.1
        · intro p hp
          simp only at hp
          rw [g2] at hp
          exact hinv p hp
      · split
        · split
          · intro p hp
            simp only [defersDelete, List.mem_filter] at hp
            rw [g2] at hp
            exact hinv p hp.1
          · simp only
            split
            · split
              · intro p hp
                simp only [defersDelete, List.mem_filter] at hp
                rw [g2] at hp
                exact hinv p hp.1
              · intro p hp
                simp only [defersDelete, List.mem_filter] at hp
                rw [g2] at hp
                exact hinv p hp.1
            · intro p hp
              simp only [defersDelete, List.mem_filter] at hp
              rw [g2] at hp
              exact hinv p hp.1
        · intro p hp
          simp only [sweep, List.mem_filter] at hp
          rw [g2] at hp
          exact hinv p hp.1
  · exact hinv

/-! ## The branches of `Intercept` -/

theorem Intercept_other {σ : Type} (env : Env σ) (h : handleInterceptor σ) (kevt : Kevent)
    (h1 : kevt.Typ ≠ Ktype.CreateHandle) (h2 : kevt.Typ ≠ Ktype.CloseHandle) :
    h.Intercept env kevt = ⟨h, kevt, true, none⟩ := by
  simp [handleInterceptor.Intercept, h1, h2]

theorem Intercept_create_defer_eq {σ : Type} (env : Env σ) (h : handleInterceptor σ)
    (kevt : Kevent) (r : Enriched σ) (hty : kevt.Typ = Ktype.CreateHandle)
    (hen : enrich env h kevt = .ok r) (hname : r.name = "")
    (htn : r.typeName = handle.Key ∨ r.typeName = handle.File ∨
      r.typeName = handle.Desktop ∨ r.typeName = handle.SymbolicLink) :
    h.Intercept env kevt =
      ⟨{ r.h with defers := defersStore r.h.defers r.object r.kevt }, r.kevt, false,
        some Err.ErrCancelUpstreamKevent⟩ := by
  have hrt : r.kevt.Typ = Ktype.CreateHandle := by
    rw [(enrich_frame env h kevt r hen).1, hty]
  unfold handleInterceptor.Intercept
  rw [if_pos (Or.inl hty)]
  simp only [hen]
  rw [if_pos hrt, if_pos ⟨hname, htn⟩]

theorem Intercept_create_write_eq {σ : Type} (env : Env σ) (h : handleInterceptor σ)
    (kevt : Kevent) (r : Enriched σ) (hty : kevt.Typ = Ktype.CreateHandle)
    (hen : enrich env h kevt = .ok r)
    (hnd : ¬ (r.name = "" ∧ (r.typeName = handle.Key ∨ r.typeName = handle.File ∨
      r.typeName = handle.Desktop ∨ r.typeName = handle.SymbolicLink))) :
    h.Intercept env kevt =
      ⟨{ r.h with hsnap := (env.Write r.h.hsnap r.kevt).1 }, r.kevt, false,
        (env.Write r.h.hsnap r.kevt).2⟩ := by
  have hrt : r.kevt.Typ = Ktype.CreateHandle := by
    rw [(enrich_frame env h kevt r hen).1, hty]
  unfold handleInterceptor.Intercept
  rw [if_pos (Or.inl hty)]
  simp only [hen]
  rw [if_pos hrt, if_neg hnd]

theorem Intercept_close_unmatched_eq {σ : Type} (env : Env σ) (h : handleInterceptor σ)
    (kevt : Kevent) (r : Enriched σ) (hty : kevt.Typ = Ktype.CloseHandle)
    (hen : enrich env h kevt = .ok r) (hl : defersLookup r.h.defers r.object = none) :
    h.Intercept env kevt =
      ⟨{ sweep env.Now r.h with hsnap := (env.Remove (sweep env.Now r.h).hsnap r.kevt).1 },
        r.kevt, false, (env.Remove (sweep env.Now r.h).hsnap r.kevt).2⟩ := by
  have hrt : ¬ r.kevt.Typ = Ktype.CreateHandle := by
    rw [(enrich_frame env h kevt r hen).1, hty]
    decide
  unfold handleInterceptor.Intercept
  rw [if_pos (Or.inr hty)]
  simp only [hen]
  rw [if_neg hrt]
  simp only [hl]

theorem Intercept_close_matched_eq {σ : Type} (env : Env σ) (h : handleInterceptor σ)
    (kevt : Kevent) (r : Enriched σ) (hkevt : Kevent) (hty : kevt.Typ = Ktype.CloseHandle)
    (hen : enrich env h kevt = .ok r) (hl : defersLookup r.h.defers r.object = some hkevt)
    (hn : hkevt.Kparams.has kparams.HandleObjectName = true) :
    h.Intercept env kevt =
      (let h2 := matchedState r.h r.object (withName hkevt r.name)
       let w := env.Write r.h.hsnap (withName hkevt r.name)
       match w.2 with
       | some _ =>
         let r1 := env.Remove w.1 r.kevt
         match r1.2 with
         | some err => ⟨{ h2 with hsnap := r1.1 }, r.kevt, false, some err⟩
         | none =>
           let r2 := env.Remove r1.1 r.kevt
           ⟨{ h2 with hsnap := r2.1 }, r.kevt, false, r2.2⟩
       | none =>
         let r2 := env.Remove w.1 r.kevt
         ⟨{ h2 with hsnap := r2.1 }, r.kevt, false, r2.2⟩) := by
  have hrt : ¬ r.kevt.Typ = Ktype.CreateHandle := by
    rw [(enrich_frame env h kevt r hen).1, hty]
    decide
  unfold handleInterceptor.Intercept
  rw [if_pos (Or.inr hty)]
  simp only [hen]
  rw [if_neg hrt]
  simp only [hl, Kparams.Set_of_has _ _ _ _ hn]
  rfl

theorem Intercept_close_matched_state {σ : Type} (env : Env σ) (h : handleInterceptor σ)
    (kevt : Kevent) (r : Enriched σ) (hkevt : Kevent) (hty : kevt.Typ = Ktype.CloseHandle)
    (hen : enrich env h kevt = .ok r) (hl : defersLookup r.h.defers r.object = some hkevt)
    (hn : hkevt.Kparams.has kparams.HandleObjectName = true) :
    (h.Intercept env kevt).h.defers = defersDelete r.h.defers r.object ∧
    (h.Intercept env kevt).h.deferredKevts = r.h.deferredKevts ++ [withName hkevt r.name] ∧
    (h.Intercept env kevt).kevt = r.kevt ∧ (h.Intercept env kevt).cont = false := by
  rw [Intercept_close_matched_eq env h kevt r hkevt hty hen hl hn]
  simp only
  split
  · split
    · exact ⟨rfl, rfl, rfl, rfl⟩
    · exact ⟨rfl, rfl, rfl, rfl⟩
  · exact ⟨rfl, rfl, rfl, rfl⟩

theorem runIntercept_others {σ : Type} (h : handleInterceptor σ)
    (others : List (Env σ × Kevent))
    (ho : ∀ c ∈ others, c.2.Typ ≠ Ktype.CreateHandle ∧ c.2.Typ ≠ Ktype.CloseHandle) :
    runIntercept h others = h := by
  induction others generalizing h with
  | nil => rfl
  | cons c rest ih =>
    have hc := ho c (List.mem_cons_self _ _)
    simp only [runIntercept, List.foldl_cons] at ih ⊢
    rw [Intercept_other c.1 h c.2 hc.1 hc.2]
    exact ih h (fun d hd => ho d (List.mem_cons_of_mem _ hd))

/-! ## CreateHandle events -/

/-- C2: a CreateHandle event whose parameters decode, whose resolved type name is one of
Key, File, Desktop or SymbolicLink and whose canonicalized name is empty is stored in the
deferred map under its object address; the snapshot is not written, nothing is sent on
the deferred-events channel, and the call returns continue=false with the
cancel-upstream error. -/
theorem Intercept_create_deferred {σ : Type} (env : Env σ) (h : handleInterceptor σ)
    (kevt : Kevent) (r : Enriched σ) (hty : kevt.Typ = Ktype.CreateHandle)
    (hen : enrich env h kevt = .ok r)
    (htn : r.typeName = handle.Key ∨ r.typeName = handle.File ∨
      r.typeName = handle.Desktop ∨ r.typeName = handle.SymbolicLink)
    (hname : r.name = "") :
    kevt.Kparams.GetHexAsUint64 kparams.HandleObject = .ok r.object ∧
    (h.Intercept env kevt).h.defers = defersStore h.defers r.object r.kevt ∧
    defersLookup (h.Intercept env kevt).h.defers r.object = some r.kevt ∧
    (h.Intercept env kevt).h.hsnap = h.hsnap ∧
    (h.Intercept env kevt).h.deferredKevts = h.deferredKevts ∧
    (h.Intercept env kevt).kevt = r.kevt ∧
    (h.Intercept env kevt).cont = false ∧
    (h.Intercept env kevt).err = some Err.ErrCancelUpstreamKevent := by
  obtain ⟨-, -, -, -, g1, g2, g3, -⟩ := enrich_frame env h kevt r hen
  rw [Intercept_create_defer_eq env h kevt r hty hen hname htn]
  refine ⟨enrich_object env h kevt r hen, ?_, ?_, g1, g3, rfl, rfl, rfl⟩
  · simp only [g2]
  · exact defersLookup_store _ _ _

/-- C10: a CreateHandle event whose parameters decode and that is not deferred (its
canonicalized name is non-empty, or its type is none of Key, File, Desktop,
SymbolicLink) is written to the snapshot; the deferred map is left unchanged, nothing is
sent on the deferred-events channel, and the call returns continue=false with exactly
the result of the snapshot write as its error. -/
theorem Intercept_create_written {σ : Type} (env : Env σ) (h : handleInterceptor σ)
    (kevt : Kevent) (r : Enriched σ) (hty : kevt.Typ = Ktype.CreateHandle)
    (hen : enrich env h kevt = .ok r)
    (hnd : r.name ≠ "" ∨ (r.typeName ≠ handle.Key ∧ r.typeName ≠ handle.File ∧
      r.typeName ≠ handle.Desktop ∧ r.typeName ≠ handle.SymbolicLink)) :
    (h.Intercept env kevt).h.hsnap = (env.Write h.hsnap r.kevt).1 ∧
    (h.Intercept env kevt).h.defers = h.defers ∧
    (h.Intercept env kevt).h.deferredKevts = h.deferredKevts ∧
    (h.Intercept env kevt).kevt = r.kevt ∧
    (h.Intercept env kevt).cont = false ∧
    (h.Intercept env kevt).err = (env.Write h.hsnap r.kevt).2 := by
  obtain ⟨-, -, -, -, g1, g2, g3, -⟩ := enrich_frame env h kevt r hen
  have hnd2 : ¬ (r.name = "" ∧ (r.typeName = handle.Key ∨ r.typeName = handle.File ∨
      r.typeName = handle.Desktop ∨ r.typeName = handle.SymbolicLink)) := by
    rintro ⟨hn, ht⟩
    rcases hnd with hnd | ⟨a, b, c, d⟩
    · exact hnd hn
    · rcases ht with ht | ht | ht | ht
      · exact a ht
      · exact b ht
      · exact c ht
      · exact d ht
  rw [Intercept_create_write_eq env h kevt r hty hen hnd2]
  simp only [g1]
  exact ⟨trivial, g2, g3, trivial, trivial, trivial⟩

/-! ## CloseHandle events -/

/-- C1: when Intercept defers a CreateHandle event under object address A and the next
handle event it receives is a CloseHandle event with the same object address whose
canonicalized object name is N, that call sends on the deferred-events channel exactly
the stored CreateHandle event with its object-name parameter set to N, and afterwards the
deferred map has no entry for A. -/
theorem Intercept_close_emits_deferred {σ : Type} (env1 env2 : Env σ)
    (h : handleInterceptor σ) (create close : Kevent) (r1 r2 : Enriched σ)
    (others : List (Env σ × Kevent))
    (hc : create.Typ = Ktype.CreateHandle) (he1 : enrich env1 h create = .ok r1)
    (hname : r1.name = "")
    (htn : r1.typeName = handle.Key ∨ r1.typeName = handle.File ∨
      r1.typeName = handle.Desktop ∨ r1.typeName = handle.SymbolicLink)
    (ho : ∀ c ∈ others, c.2.Typ ≠ Ktype.CreateHandle ∧ c.2.Typ ≠ Ktype.CloseHandle)
    (hcl : close.Typ = Ktype.CloseHandle)
    (he2 : enrich env2 (runIntercept (h.Intercept env1 create).h others) close = .ok r2)
    (hobj : r2.object = r1.object) :
    defersLookup (runIntercept (h.Intercept env1 create).h others).defers r1.object
      = some r1.kevt ∧
    ((runIntercept (h.Intercept env1 create).h others).Intercept env2 close).h.deferredKevts
      = (runIntercept (h.Intercept env1 create).h others).deferredKevts
          ++ [withName r1.kevt r2.name] ∧
    defersLookup
      ((runIntercept (h.Intercept env1 create).h others).Intercept env2 close).h.defers
      r1.object = none := by
  rw [runIntercept_others _ others ho] at he2 ⊢
  have hst : defersLookup (h.Intercept env1 create).h.defers r1.object = some r1.kevt := by
    rw [Intercept_create_defer_eq env1 h create r1 hc he1 hname htn]
    exact defersLookup_store _ _ _
  obtain ⟨-, -, -, -, -, -, -, f4⟩ := enrich_frame env1 h create r1 he1
  obtain ⟨-, -, -, -, -, g2, g3, -⟩ := enrich_frame env2 _ close r2 he2
  have hl : defersLookup r2.h.defers r2.object = some r1.kevt := by
    rw [g2, hobj]
    exact hst
  obtain ⟨m1, m2, -, -⟩ :=
    Intercept_close_matched_state env2 _ close r2 r1.kevt hcl he2 hl f4
  refine ⟨hst, ?_, ?_⟩
  · rw [m2, g3]
  · rw [m1, ← hobj]
    exact defersLookup_delete _ _

/-- Instance of C1: `sampleCreate` is deferred, an event of another type passes, and `sampleClose` completes it with the name `report.txt`. -/
theorem Intercept_close_emits_deferred_witness :
    sampleCreate.Typ = Ktype.CreateHandle ∧ sampleClose.Typ = Ktype.CloseHandle ∧
    defersLookup
      (runIntercept (sampleState.Intercept sampleEnv sampleCreate).h
        [(sampleEnv, sampleOther)]).defers 4096 = some sampleCreateEnriched ∧
    ((runIntercept (sampleState.Intercept sampleEnv sampleCreate).h
        [(sampleEnv, sampleOther)]).Intercept sampleEnv sampleClose).h.deferredKevts
      = (runIntercept (sampleState.Intercept sampleEnv sampleCreate).h
          [(sampleEnv, sampleOther)]).deferredKevts
          ++ [withName sampleCreateEnriched "report.txt"] ∧
    defersLookup
      ((runIntercept (sampleState.Intercept sampleEnv sampleCreate).h
        [(sampleEnv, sampleOther)]).Intercept sampleEnv sampleClose).h.defers 4096 = none :=
  ⟨rfl, rfl,
    Intercept_close_emits_deferred sampleEnv sampleEnv sampleState sampleCreate sampleClose
      ⟨sampleState, sampleCreateEnriched, 4096, handle.File, ""⟩
      ⟨(sampleState.Intercept sampleEnv sampleCreate).h, sampleCloseEnriched, 4096,
        handle.File, "report.txt"⟩
      [(sampleEnv, sampleOther)] rfl rfl rfl (Or.inr (Or.inl rfl))
      (by intro c hc; simp only [List.mem_singleton] at hc; subst hc; decide)
      rfl rfl rfl⟩

/-- Instance of C2: `sampleCreate`, a nameless handle of type `File`, is deferred. -/
theorem Intercept_create_deferred_witness :
    sampleCreate.Typ = Ktype.CreateHandle ∧
    enrich sampleEnv sampleState sampleCreate
      = .ok ⟨sampleState, sampleCreateEnriched, 4096, handle.File, ""⟩ ∧
    defersLookup (sampleState.Intercept sampleEnv sampleCreate).h.defers 4096
      = some sampleCreateEnriched ∧
    (sampleState.Intercept sampleEnv sampleCreate).h.hsnap = sampleState.hsnap ∧
    (sampleState.Intercept sampleEnv sampleCreate).cont = false ∧
    (sampleState.Intercept sampleEnv sampleCreate).err = some Err.ErrCancelUpstreamKevent :=
  have key := Intercept_create_deferred sampleEnv sampleState sampleCreate
    ⟨sampleState, sampleCreateEnriched, 4096, handle.File, ""⟩ rfl rfl (Or.inr (Or.inl rfl)) rfl
  ⟨rfl, rfl, key.2.2.1, key.2.2.2.1, key.2.2.2.2.2.2.1, key.2.2.2.2.2.2.2⟩

/-- Instance of C10: `sampleCreateNamed` carries a name and is written to the snapshot. -/
theorem Intercept_create_written_witness :
    sampleCreateNamed.Typ = Ktype.CreateHandle ∧
    enrich sampleEnv sampleState sampleCreateNamed
      = .ok ⟨sampleState, sampleCreateNamedEnriched, 4096, handle.File, "report.txt"⟩ ∧
    (sampleState.Intercept sampleEnv sampleCreateNamed).h.hsnap = [(4, 28)] ∧
    (sampleState.Intercept sampleEnv sampleCreateNamed).h.defers = [] ∧
    (sampleState.Intercept sampleEnv sampleCreateNamed).cont = false ∧
    (sampleState.Intercept sampleEnv sampleCreateNamed).err = none :=
  have key := Intercept_create_written sampleEnv sampleState sampleCreateNamed
    ⟨sampleState, sampleCreateNamedEnriched, 4096, handle.File, "report.txt"⟩ rfl rfl
    (Or.inl (by decide))
  ⟨rfl, rfl, key.1, key.2.1, key.2.2.2.2.1, key.2.2.2.2.2⟩

/-- C9: for a CloseHandle event whose parameters decode and whose type resolves,
Intercept requests removal of the event's handle from the snapshot whether or not a
pending entry matched, and returns continue=false. Without a match the removal acts on
the snapshot as it was; with a match the deferred CreateHandle is written first and the
removal acts on the snapshot the write left. Hence whatever a removal of this event
establishes about the snapshot (the handle is absent) holds afterwards. -/
theorem Intercept_close_removes {σ : Type} (env : Env σ) (h : handleInterceptor σ)
    (kevt : Kevent) (r : Enriched σ) (hinv : PendingNamed h)
    (hty : kevt.Typ = Ktype.CloseHandle) (hen : enrich env h kevt = .ok r) :
    (h.Intercept env kevt).cont = false ∧ (h.Intercept env kevt).kevt = r.kevt ∧
    (defersLookup h.defers r.object = none →
      (h.Intercept env kevt).h.hsnap = (env.Remove h.hsnap r.kevt).1 ∧
      (h.Intercept env kevt).err = (env.Remove h.hsnap r.kevt).2) ∧
    (∀ hkevt, defersLookup h.defers r.object = some hkevt →
      (h.Intercept env kevt).h.hsnap
        = (env.Remove (env.Write h.hsnap (withName hkevt r.name)).1 r.kevt).1 ∨
      (h.Intercept env kevt).h.hsnap
        = (env.Remove
            (env.Remove (env.Write h.hsnap (withName hkevt r.name)).1 r.kevt).1 r.kevt).1) ∧
    (∀ P : σ → Prop, (∀ x, P (env.Remove x r.kevt).1) → P (h.Intercept env kevt).h.hsnap) := by
  obtain ⟨-, -, -, -, g1, g2, -, -⟩ := enrich_frame env h kevt r hen
  cases hl : defersLookup h.defers r.object with
  | none =>
    have hl2 : defersLookup r.h.defers r.object = none := by rw [g2]; exact hl
    rw [Intercept_close_unmatched_eq env h kevt r hty hen hl2]
    have hs : (sweep env.Now r.h).hsnap = h.hsnap := g1
    refine ⟨rfl, rfl, fun _ => ⟨?_, ?_⟩, ?_, fun P hP => hP _⟩
    · show (env.Remove (sweep env.Now r.h).hsnap r.kevt).1 = _
      rw [hs]
    · show (env.Remove (sweep env.Now r.h).hsnap r.kevt).2 = _
      rw [hs]
    · intro hkevt hk
      simp at hk
  | some hk =>
    have hl2 : defersLookup r.h.defers r.object = some hk := by rw [g2]; exact hl
    have hn : hk.Kparams.has kparams.HandleObjectName = true :=
      hinv (r.object, hk) (defersLookup_mem _ _ _ hl)
    rw [Intercept_close_matched_eq env h kevt r hk hty hen hl2 hn]
    simp only [g1]
    split
    · split
      · refine ⟨rfl, rfl, fun hc => ?_, ?_, fun P hP => hP _⟩
        · simp at hc
        · intro hkevt he
          simp only [Option.some.injEq] at he
          subst he
          exact Or.inl rfl
      · refine ⟨rfl, rfl, fun hc => ?_, ?_, fun P hP => hP _⟩
        · simp at hc
        · intro hkevt he
          simp only [Option.some.injEq] at he
          subst he
          exact Or.inr rfl
    · refine ⟨rfl, rfl, fun hc => ?_, ?_, fun P hP => hP _⟩
      · simp at hc
      · intro hkevt he
        simp only [Option.some.injEq] at he
        subst he
        exact Or.inl rfl

/-- Instance of C9: after `sampleCreate` and `sampleClose` the handle `0x1c` of process 4 is not in the snapshot. -/
theorem Intercept_close_removes_witness :
    PendingNamed (sampleState.Intercept sampleEnv sampleCreate).h ∧
    sampleClose.Typ = Ktype.CloseHandle ∧
    ((sampleState.Intercept sampleEnv sampleCreate).h.Intercept sampleEnv sampleClose).cont
      = false ∧
    (4, 28) ∉
      ((sampleState.Intercept sampleEnv sampleCreate).h.Intercept sampleEnv sampleClose).h.hsnap :=
  have hinv : PendingNamed (sampleState.Intercept sampleEnv sampleCreate).h :=
    PendingNamed_Intercept sampleEnv sampleState sampleCreate (PendingNamed_new _ _ _)
  have key := Intercept_close_removes sampleEnv (sampleState.Intercept sampleEnv sampleCreate).h
    sampleClose
    ⟨(sampleState.Intercept sampleEnv sampleCreate).h, sampleCloseEnriched, 4096,
      handle.File, "report.txt"⟩ hinv rfl rfl
  ⟨hinv, rfl, key.1,
    key.2.2.2.2 (fun s => (4, 28) ∉ s) (fun x => by
      show (4, 28) ∉ x.filter (fun y => !decide (y = (4, 28)))
      simp [List.mem_filter])⟩

/-- C4 (as stated, refuted): the deferred write fails and the cleanup removal succeeds,
and yet Intercept returns an error, the one of the removal it performs after the
cleanup. -/
theorem Intercept_close_write_failure_counterexample :
    defersLookup (staleState.Intercept strictEnv sampleCreate).h.defers 4096
      = some sampleCreateEnriched ∧
    (strictEnv.Write (staleState.Intercept strictEnv sampleCreate).h.hsnap
      (withName sampleCreateEnriched "report.txt")).2 = some (Err.External 1) ∧
    (strictEnv.Remove
      (strictEnv.Write (staleState.Intercept strictEnv sampleCreate).h.hsnap
        (withName sampleCreateEnriched "report.txt")).1 sampleCloseEnriched).2 = none ∧
    ((staleState.Intercept strictEnv sampleCreate).h.Intercept strictEnv sampleClose).err
      = some (Err.External 2) := by
  decide

/-- C4 (amended): when a CloseHandle event matches a pending entry and the snapshot write
of the deferred CreateHandle event fails, Intercept attempts the cleanup removal; if the
cleanup fails, its error is returned; if the cleanup succeeds, Intercept removes the
handle once more and returns exactly the result of that last removal. The error returned
is thus always the result of a removal, never the write failure. -/
theorem Intercept_close_write_failure {σ : Type} (env : Env σ) (h : handleInterceptor σ)
    (kevt : Kevent) (r : Enriched σ) (hkevt : Kevent) (werr : Err)
    (hinv : PendingNamed h) (hty : kevt.Typ = Ktype.CloseHandle)
    (hen : enrich env h kevt = .ok r) (hl : defersLookup h.defers r.object = some hkevt)
    (hw : (env.Write h.hsnap (withName hkevt r.name)).2 = some werr) :
    (h.Intercept env kevt).cont = false ∧
    (∀ rerr,
      (env.Remove (env.Write h.hsnap (withName hkevt r.name)).1 r.kevt).2 = some rerr →
      (h.Intercept env kevt).err = some rerr ∧
      (h.Intercept env kevt).h.hsnap
        = (env.Remove (env.Write h.hsnap (withName hkevt r.name)).1 r.kevt).1) ∧
    ((env.Remove (env.Write h.hsnap (withName hkevt r.name)).1 r.kevt).2 = none →
      (h.Intercept env kevt).err
        = (env.Remove
            (env.Remove (env.Write h.hsnap (withName hkevt r.name)).1 r.kevt).1 r.kevt).2 ∧
      (h.Intercept env kevt).h.hsnap
        = (env.Remove
            (env.Remove (env.Write h.hsnap (withName hkevt r.name)).1 r.kevt).1 r.kevt).1) := by
  obtain ⟨-, -, -, -, g1, g2, -, -⟩ := enrich_frame env h kevt r hen
  have hl2 : defersLookup r.h.defers r.object = some hkevt := by rw [g2]; exact hl
  have hn : hkevt.Kparams.has kparams.HandleObjectName = true :=
    hinv (r.object, hkevt) (defersLookup_mem _ _ _ hl)
  rw [Intercept_close_matched_eq env h kevt r hkevt hty hen hl2 hn]
  simp only [g1, hw]
  split
  · rename_i err herr
    refine ⟨rfl, ?_, ?_⟩
    · intro rerr hr
      rw [herr] at hr
      simp only [Option.some.injEq] at hr
      subst hr
      exact ⟨rfl, rfl⟩
    · intro hr
      rw [herr] at hr
      simp at hr
  · rename_i herr
    refine ⟨rfl, ?_, ?_⟩
    · intro rerr hr
      rw [herr] at hr
      simp at hr
    · intro _
      exact ⟨rfl, rfl⟩

/-- Instance of C4 (amended): the write fails, the cleanup removal succeeds, and the error returned is the result of the last removal. -/
theorem Intercept_close_write_failure_witness :
    PendingNamed (staleState.Intercept strictEnv sampleCreate).h ∧
    (strictEnv.Write (staleState.Intercept strictEnv sampleCreate).h.hsnap
      (withName sampleCreateEnriched "report.txt")).2 = some (Err.External 1) ∧
    ((staleState.Intercept strictEnv sampleCreate).h.Intercept strictEnv sampleClose).cont
      = false ∧
    ((staleState.Intercept strictEnv sampleCreate).h.Intercept strictEnv sampleClose).err
      = (strictEnv.Remove [] sampleCloseEnriched).2 :=
  have hinv : PendingNamed (staleState.Intercept strictEnv sampleCreate).h :=
    PendingNamed_Intercept strictEnv staleState sampleCreate (PendingNamed_new _ _ _)
  have key := Intercept_close_write_failure strictEnv
    (staleState.Intercept strictEnv sampleCreate).h sampleClose
    ⟨(staleState.Intercept strictEnv sampleCreate).h, sampleCloseEnriched, 4096,
      handle.File, "report.txt"⟩ sampleCreateEnriched (Err.External 1) hinv rfl rfl rfl rfl
  ⟨hinv, rfl, key.1, (key.2.2 rfl).1⟩

/-! ## The sweep of pending events -/

theorem sweep_mem {σ : Type} (now : Nat → Int) (h : handleInterceptor σ) (p : Nat × Kevent) :
    p ∈ (sweep now h).defers ↔ p ∈ h.defers ∧ now p.1 + waitPeriod ≤ p.2.Timestamp := by
  simp [sweep, evict, List.mem_filter]

/-- C3 (the code at the failing input): a CreateHandle event observed at 9 s is pending
when, at 10 s, a CloseHandle event for another object arrives. The pending event is one
second old, well within the wait window of five seconds, and the sweep removes it. -/
theorem Intercept_sweep_evicts_recent :
    defersLookup (sampleState.Intercept sampleEnv sampleCreate).h.defers 4096
      = some sampleCreateEnriched ∧
    defersLookup (sampleState.Intercept sampleEnv sampleCreate).h.defers 8192 = none ∧
    sampleEnv.Now 4096 - waitPeriod ≤ sampleCreateEnriched.Timestamp ∧
    sampleCreateEnriched.Timestamp ≤ sampleEnv.Now 4096 ∧
    ((sampleState.Intercept sampleEnv sampleCreate).h.Intercept sampleEnv
      sampleCloseOther).h.defers = [] := by
  decide

/-! ## Resolution of the object type -/

/-- C5 (the code at the failing input): the type store has no name for type 7 and the OS
would answer the duplication and the type query with `Key`; Intercept nevertheless
returns the `TypeMismatch` error of its second read of the handle identifier, asks the OS
nothing and registers nothing. -/
theorem Intercept_miss_registers_nothing :
    emptyState.typeStore.FindByID 7 = "" ∧
    sampleEnv.Duplicate 28 4 syshandle.Access.AllAccess = .ok 99 ∧
    sampleEnv.QueryType 99 = .ok handle.Key ∧
    (emptyState.Intercept sampleEnv sampleCreate).err
      = some (Err.TypeMismatch kparams.HandleID) ∧
    (emptyState.Intercept sampleEnv sampleCreate).cont = true ∧
    (emptyState.Intercept sampleEnv sampleCreate).h.syscalls = [] ∧
    (emptyState.Intercept sampleEnv sampleCreate).h.typeStore.FindByID 7 = "" :=
  ⟨rfl, rfl, rfl, rfl, rfl, rfl, rfl⟩

theorem Kparams.findParam_replace_eq (kpars : Kparams) (name : String) (typ : ParamType)
    (value : Value) (hp : kpars.has name = true) :
    (kpars.replace name typ value).findParam name = .ok ⟨name, typ, value⟩ := by
  induction kpars with
  | nil => simp [Kparams.has] at hp
  | cons a rest ih =>
    simp only [Kparams.findParam, Kparams.replace, List.map_cons] at ih ⊢
    by_cases ha : a.Name = name
    · simp only [ha, if_true, List.find?, decide_True]
    · have hrest : Kparams.has rest name = true := by
        simpa [Kparams.has, ha] using hp
      simp only [ha, if_false, List.find?, decide_False]
      exact ih hrest

theorem normalizeHandleID_not_hex (kevt : Kevent) :
    ∃ err, (normalizeHandleID kevt).Kparams.GetHexAsUint32 kparams.HandleID = .error err := by
  unfold normalizeHandleID
  split
  · rename_i err hget
    exact ⟨err, hget⟩
  · rename_i handleID hget
    have hhas : kevt.Kparams.has kparams.HandleID = true := by
      unfold Kparams.GetHexAsUint32 at hget
      split at hget
      · simp at hget
      · rename_i q hq
        exact Kparams.has_of_findParam _ _ q hq
    rw [Kparams.Set_of_has _ _ _ _ hhas]
    refine ⟨Err.TypeMismatch kparams.HandleID, ?_⟩
    simp only [Kparams.GetHexAsUint32, Kparams.findParam_replace_eq _ _ _ _ hhas]

theorem enrich_miss {σ : Type} (env : Env σ) (h : handleInterceptor σ) (kevt : Kevent)
    (typeID : Nat)
    (hid : (normalizeHandleID kevt).Kparams.GetUint16 kparams.HandleObjectTypeID = .ok typeID)
    (hmiss : h.typeStore.FindByID (typeID % 2 ^ 8) = "") :
    ∃ err, enrich env h kevt = .error ⟨h, normalizeHandleID kevt, true, some err⟩ := by
  obtain ⟨err, herr⟩ := normalizeHandleID_not_hex kevt
  have hres : resolveType env h (normalizeHandleID kevt) typeID = .error (h, err) := by
    simp only [resolveType, hmiss, if_true, herr]
  unfold enrich
  simp only [hid]
  cases hobj : (normalizeHandleID kevt).Kparams.GetHexAsUint64 kparams.HandleObject with
  | error e => exact ⟨e, rfl⟩
  | ok object =>
    simp only [hres]
    exact ⟨err, rfl⟩

theorem Intercept_miss_fails {σ : Type} (env : Env σ) (h : handleInterceptor σ)
    (kevt : Kevent) (typeID : Nat)
    (hty : kevt.Typ = Ktype.CreateHandle ∨ kevt.Typ = Ktype.CloseHandle)
    (hid : (normalizeHandleID kevt).Kparams.GetUint16 kparams.HandleObjectTypeID = .ok typeID)
    (hmiss : h.typeStore.FindByID (typeID % 2 ^ 8) = "") :
    (h.Intercept env kevt).h = h ∧ (h.Intercept env kevt).cont = true ∧
    (h.Intercept env kevt).err ≠ none := by
  obtain ⟨err, herr⟩ := enrich_miss env h kevt typeID hid hmiss
  unfold handleInterceptor.Intercept
  rw [if_pos hty]
  simp only [herr]
  simp

/-! ## Modules of a process -/

theorem AddModule_of_FindModule_none (base : String → String) (ps : PS) (mod : Module)
    (hf : ps.FindModule base mod.Name = none) :
    (ps.AddModule base mod).Modules = ps.Modules ++ [mod] := by
  simp [PS.AddModule, hf]

/-- C6 (the code at the failing input): the module list holds `kernel32.dll` under its
full path; adding a module with that same full path appends it a second time, because
`FindModule` compares the base name of the stored path with the full path it is given. -/
theorem AddModule_duplicates_full_path :
    samplePS.Modules = [kernel32] ∧
    samplePS.FindModule filepathBase kernel32.Name = none ∧
    (samplePS.AddModule filepathBase kernel32).Modules = [kernel32, kernel32] ∧
    (samplePS.RemoveModule kernel32.Name).Modules = [] := by
  decide

/-! ## The unique process identifier -/

theorem BigEndianUint64_fold_lt (l : List Nat) (acc k : Nat) (hacc : acc < 256 ^ k) :
    l.foldl (fun acc b => acc * 256 + b % 256) acc < 256 ^ (k + l.length) := by
  induction l generalizing acc k with
  | nil => simpa using hacc
  | cons b rest ih =>
    have hb : b % 256 < 256 := Nat.mod_lt _ (by norm_num)
    have hstep : acc * 256 + b % 256 < 256 ^ (k + 1) := by
      rw [pow_succ]
      omega
    have := ih (acc * 256 + b % 256) (k + 1) hstep
    simp only [List.foldl_cons, List.length_cons]
    have e : k + (rest.length + 1) = k + 1 + rest.length := by omega
    rw [e]
    exact this

theorem BigEndianUint64_lt (buf : List Nat) : BigEndianUint64 buf < 2 ^ 64 := by
  unfold BigEndianUint64
  have h := BigEndianUint64_fold_lt ((buf ++ List.replicate 8 0).take 8) 0 0 (by norm_num)
  have hlen : ((buf ++ List.replicate 8 0).take 8).length = 8 := by
    simp [List.length_take]
  rw [hlen] at h
  calc _ < 256 ^ (0 + 8) := h
    _ = 2 ^ 64 := by norm_num

theorem querySequenceNumber_lt (os : OS) (pid : Nat) : querySequenceNumber os pid < 2 ^ 64 := by
  unfold querySequenceNumber
  split
  · norm_num
  · split
    · norm_num
    · exact BigEndianUint64_lt _

theorem toUint64_lt (x : Int) : toUint64 x < 2 ^ 64 := by
  unfold toUint64
  have h1 : x % 2 ^ 64 < 2 ^ 64 := Int.emod_lt_of_pos _ (by norm_num)
  have h2 : 0 ≤ x % 2 ^ 64 := Int.emod_nonneg _ (by norm_num)
  omega

theorem shl30_eq (x : Nat) : shl30 x = x * 2 ^ 30 % 2 ^ 64 := by
  simp [shl30, Nat.shiftLeft_eq]

/-- C8: for a process state with no cached uuid, UUID returns `(bootID << 30) |
sequenceNumber` when the OS version supports the sequence number (major at least 10 and
build at least 1507) and the queried sequence number is non-zero, and
`((bootID << 30) + PID) | processStartTimeNanos` otherwise, all in 64-bit unsigned
arithmetic; the value is stored in the process state. -/
theorem UUID_value (os : OS) (ps : PS) (h0 : ps.uuid = 0) :
    (ps.UUID os).2 = uuidSpec os ps ∧ (ps.UUID os).1.uuid = uuidSpec os ps ∧
    (ps.UUID os).2 < 2 ^ 64 := by
  have hval : (ps.UUID os).2 = uuidSpec os ps ∧ (ps.UUID os).1.uuid = uuidSpec os ps := by
    unfold PS.UUID uuidSpec
    simp only [h0, ne_eq, not_true_eq_false, if_false, shl30_eq, toUint64]
    by_cases hv : os.RtlGetNtVersionNumbers.1 ≥ 10 ∧ os.RtlGetNtVersionNumbers.2.2 ≥ 1507
    · by_cases hs : querySequenceNumber os ps.PID = 0
      · simp [hv, hs]
      · simp [hv, hs]
    · have hv2 : ¬ (os.RtlGetNtVersionNumbers.1 ≥ 10 ∧ os.RtlGetNtVersionNumbers.2.2 ≥ 1507 ∧
          querySequenceNumber os ps.PID ≠ 0) := fun hc => hv ⟨hc.1, hc.2.1⟩
      rw [if_neg hv, if_neg hv2]
      exact ⟨rfl, rfl⟩
  refine ⟨hval.1, hval.2, ?_⟩
  rw [hval.1]
  unfold uuidSpec
  split
  · exact Nat.or_lt_two_pow (Nat.mod_lt _ (by norm_num)) (querySequenceNumber_lt _ _)
  · exact Nat.or_lt_two_pow (Nat.mod_lt _ (by norm_num)) (toUint64_lt _)

/-- Instance of C8: with sequence number 5 and boot identifier 0 the value is 5; on Windows 7 the fallback applies. -/
theorem UUID_value_witness :
    samplePS.uuid = 0 ∧ (samplePS.UUID grantedOS).2 = 5 ∧
    (samplePS.UUID legacyOS).2 = uuidSpec legacyOS samplePS :=
  ⟨rfl, (UUID_value grantedOS samplePS rfl).1.trans (by decide),
    (UUID_value legacyOS samplePS rfl).1⟩

theorem UUID_cached (os : OS) (ps : PS) (hc : ps.uuid ≠ 0) : ps.UUID os = (ps, ps.uuid) := by
  unfold PS.UUID
  rw [if_pos hc]

/-- C7 (as stated, refuted): the first call computes 0 from the readings it is given,
which is not kept as a cached value; the second call, given other readings, returns 5. -/
theorem UUID_stable_counterexample :
    (idlePS.UUID deniedOS).2 = 0 ∧ ((idlePS.UUID deniedOS).1.UUID grantedOS).2 = 5 := by
  decide

/-- C7 (amended): two successive calls of UUID on the same process state return the
identical value whenever the first call returns a non-zero value, or the OS readings are
the same at both calls; the second call leaves the process state as the first left it. -/
theorem UUID_stable (os1 os2 : OS) (ps : PS)
    (h : (ps.UUID os1).2 ≠ 0 ∨ os2 = os1) :
    ((ps.UUID os1).1.UUID os2).2 = (ps.UUID os1).2 ∧
    ((ps.UUID os1).1.UUID os2).1 = (ps.UUID os1).1 := by
  by_cases hc : ps.uuid = 0
  · have hu : (ps.UUID os1).1.uuid = (ps.UUID os1).2 := by
      simp [PS.UUID, hc]
    by_cases hz : (ps.UUID os1).2 = 0
    · have hos : os2 = os1 := by
        rcases h with h | h
        · exact absurd hz h
        · exact h
      subst hos
      have hps : (ps.UUID os2).1 = ps := by
        have h1 : (ps.UUID os2).1 = { ps with uuid := (ps.UUID os2).2 } := by
          simp [PS.UUID, hc]
        rw [h1, hz, ← hc]
      rw [hps]
      exact ⟨rfl, hps.symm ▸ rfl⟩
    · have hne : (ps.UUID os1).1.uuid ≠ 0 := by rw [hu]; exact hz
      rw [UUID_cached os2 _ hne]
      exact ⟨hu, rfl⟩
  · rw [UUID_cached os1 ps hc, UUID_cached os2 ps hc]
    exact ⟨rfl, rfl⟩

/-- Instance of C7 (amended): a non-zero first value is returned again under other readings. -/
theorem UUID_stable_witness :
    (samplePS.UUID grantedOS).2 ≠ 0 ∧
    ((samplePS.UUID grantedOS).1.UUID legacyOS).2 = (samplePS.UUID grantedOS).2 :=
  ⟨by decide, (UUID_stable grantedOS legacyOS samplePS (Or.inl (by decide))).1⟩

/-! ## What a successful decoding tells -/

theorem Kparams.has_of_GetString (kpars : Kparams) (name : String) (value : String)
    (hg : kpars.GetString name = .ok value) : kpars.has name = true := by
  unfold Kparams.GetString at hg
  split at hg
  · simp at hg
  · rename_i q hq
    exact Kparams.has_of_findParam kpars name q hq

theorem resolveType_ok {σ : Type} (env : Env σ) (h h1 : handleInterceptor σ)
    (kevt : Kevent) (typeID : Nat) (typeName : String)
    (hr : resolveType env h (normalizeHandleID kevt) typeID = .ok (h1, typeName)) :
    h1 = h ∧ typeName = h.typeStore.FindByID (typeID % 2 ^ 8) ∧ typeName ≠ "" := by
  by_cases hmiss : h.typeStore.FindByID (typeID % 2 ^ 8) = ""
  · obtain ⟨err, herr⟩ := normalizeHandleID_not_hex kevt
    simp only [resolveType, hmiss, if_true, herr] at hr
    simp at hr
  · simp only [resolveType, hmiss, if_false, Except.ok.injEq, Prod.mk.injEq] at hr
    obtain ⟨hh, ht⟩ := hr
    exact ⟨hh.symm, ht.symm, ht ▸ hmiss⟩

theorem enrich_inv {σ : Type} (env : Env σ) (h : handleInterceptor σ) (kevt : Kevent)
    (r : Enriched σ) (hr : enrich env h kevt = .ok r) :
    ∃ typeID rawName,
      (normalizeHandleID kevt).Kparams.GetUint16 kparams.HandleObjectTypeID = .ok typeID ∧
      r.h = h ∧ r.typeName = h.typeStore.FindByID (typeID % 2 ^ 8) ∧ r.typeName ≠ "" ∧
      (((normalizeHandleID kevt).Kparams.Append kparams.HandleObjectTypeName
          ParamType.AnsiString (Value.Str r.typeName)).Remove
        kparams.HandleObjectTypeID).GetString kparams.HandleObjectName = .ok rawName ∧
      r.name = canonicalName env r.typeName rawName ∧
      r.kevt.Kparams.GetString kparams.HandleObjectName = .ok r.name := by
  unfold enrich at hr
  simp only at hr
  split at hr
  · simp at hr
  · rename_i typeID hid
    split at hr
    · simp at hr
    · split at hr
      · simp at hr
      · rename_i h1 typeName hres
        obtain ⟨e1, e2, e3⟩ := resolveType_ok env h h1 kevt typeID typeName hres
        split at hr
        · simp at hr
        · rename_i rawName hraw
          split at hr
          · simp at hr
          · rename_i kpars hset
            simp only [Except.ok.injEq] at hr
            subst hr
            obtain ⟨k1, k2⟩ := Kparams.Set_ok _ _ _ _ _ hset
            refine ⟨typeID, rawName, hid, e1, e2, e3, hraw, rfl, ?_⟩
            simp only [Kparams.GetString, k1]
            rw [Kparams.findParam_replace_eq _ _ _ _ (Kparams.has_of_GetString _ _ _ hraw)]

/-! ## Parameters that a mutation leaves alone -/

theorem Kparams.findParam_none_of_not_has (kpars : Kparams) (name : String)
    (hp : kpars.has name = false) :
    kpars.find? (fun p => decide (p.Name = name)) = none := by
  rw [List.find?_eq_none]
  intro x hx
  simp only [Kparams.has, List.any_eq_false, decide_eq_true_eq] at hp
  simpa using hp x hx

theorem Kparams.findParam_Append_ne (kpars : Kparams) (name other : String)
    (typ : ParamType) (value : Value) (hne : name ≠ other) :
    (kpars.Append name typ value).findParam other = kpars.findParam other := by
  unfold Kparams.Append
  split
  · simp only [Kparams.findParam, List.find?_append, List.find?, hne, decide_False]
    cases List.find? (fun p => decide (p.Name = other)) kpars <;> rfl
  · exact Kparams.findParam_replace_ne kpars name other typ value hne

theorem Kparams.findParam_Append_eq (kpars : Kparams) (name : String) (typ : ParamType)
    (value : Value) :
    (kpars.Append name typ value).findParam name = .ok ⟨name, typ, value⟩ := by
  unfold Kparams.Append
  split
  · rename_i err herr
    have hnone : kpars.find? (fun p => decide (p.Name = name)) = none := by
      unfold Kparams.findParam at herr
      split at herr
      · simp at herr
      · assumption
    simp only [Kparams.findParam, List.find?_append, hnone, List.find?, decide_True]
    rfl
  · rename_i q hq
    exact Kparams.findParam_replace_eq kpars name typ value
      (Kparams.has_of_findParam kpars name q hq)

theorem Kparams.findParam_Remove_ne (kpars : Kparams) (name other : String)
    (hne : name ≠ other) :
    (kpars.Remove name).findParam other = kpars.findParam other := by
  induction kpars with
  | nil => rfl
  | cons a rest ih =>
    simp only [Kparams.findParam, Kparams.Remove] at ih ⊢
    by_cases ha : a.Name = name
    · have hao : ¬ a.Name = other := fun hc => hne (ha.symm.trans hc)
      simp only [List.filter, ha, decide_True, Bool.not_true, List.find?, hao, hne,
        decide_False]
      exact ih
    · by_cases hb : a.Name = other
      · have hon : ¬ other = name := fun hc => hne hc.symm
        simp only [List.filter, ha, decide_False, Bool.not_false, List.find?, hb, hon,
          decide_True]
      · simp only [List.filter, ha, decide_False, Bool.not_false, List.find?, hb]
        exact ih

theorem normalizeHandleID_findParam_ne (kevt : Kevent) (other : String)
    (hne : kparams.HandleID ≠ other) :
    (normalizeHandleID kevt).Kparams.findParam other = kevt.Kparams.findParam other := by
  unfold normalizeHandleID
  split
  · rfl
  · split
    · rfl
    · rename_i kpars hset
      have hk := (Kparams.Set_ok _ _ _ _ _ hset).1
      simp only [hk]
      exact Kparams.findParam_replace_ne _ _ _ _ _ hne

theorem Kparams.findParam_error_isDecode (kpars : Kparams) (name : String) (e : Err)
    (he : kpars.findParam name = .error e) : e.isDecode = true := by
  unfold Kparams.findParam at he
  split at he
  · simp at he
  · simp only [Except.error.injEq] at he
    subst he
    rfl

theorem Kparams.GetUint16_error_isDecode (kpars : Kparams) (name : String) (e : Err)
    (he : kpars.GetUint16 name = .error e) : e.isDecode = true := by
  unfold Kparams.GetUint16 at he
  split at he
  · rename_i e1 h1
    simp only [Except.error.injEq] at he
    subst he
    exact Kparams.findParam_error_isDecode kpars name _ h1
  · split at he
    · simp at he
    · simp only [Except.error.injEq] at he
      subst he
      rfl

theorem Kparams.GetHexAsUint32_error_isDecode (kpars : Kparams) (name : String) (e : Err)
    (he : kpars.GetHexAsUint32 name = .error e) : e.isDecode = true := by
  unfold Kparams.GetHexAsUint32 at he
  split at he
  · rename_i e1 h1
    simp only [Except.error.injEq] at he
    subst he
    exact Kparams.findParam_error_isDecode kpars name _ h1
  · split at he
    · simp at he
    · simp only [Except.error.injEq] at he
      subst he
      rfl

theorem Kparams.GetHexAsUint64_error_isDecode (kpars : Kparams) (name : String) (e : Err)
    (he : kpars.GetHexAsUint64 name = .error e) : e.isDecode = true := by
  unfold Kparams.GetHexAsUint64 at he
  split at he
  · rename_i e1 h1
    simp only [Except.error.injEq] at he
    subst he
    exact Kparams.findParam_error_isDecode kpars name _ h1
  · split at he
    · simp at he
    · simp only [Except.error.injEq] at he
      subst he
      rfl

theorem Kparams.GetString_error_isDecode (kpars : Kparams) (name : String) (e : Err)
    (he : kpars.GetString name = .error e) : e.isDecode = true := by
  unfold Kparams.GetString at he
  split at he
  · rename_i e1 h1
    simp only [Except.error.injEq] at he
    subst he
    exact Kparams.findParam_error_isDecode kpars name _ h1
  · split at he
    · simp at he
    · simp only [Except.error.injEq] at he
      subst he
      rfl

theorem Kparams.Set_error_isDecode (kpars : Kparams) (name : String) (value : Value)
    (typ : ParamType) (e : Err) (he : kpars.Set name value typ = .error e) :
    e.isDecode = true := by
  unfold Kparams.Set at he
  split at he
  · rename_i e1 h1
    simp only [Except.error.injEq] at he
    subst he
    exact Kparams.findParam_error_isDecode kpars name _ h1
  · simp at he

theorem typedParams_findParam_ne (kevt : Kevent) (typeName other : String)
    (h1 : kparams.HandleID ≠ other) (h2 : kparams.HandleObjectTypeName ≠ other)
    (h3 : kparams.HandleObjectTypeID ≠ other) :
    (typedParams kevt typeName).findParam other = kevt.Kparams.findParam other := by
  unfold typedParams
  rw [Kparams.findParam_Remove_ne _ _ _ h3, Kparams.findParam_Append_ne _ _ _ _ _ h2,
    normalizeHandleID_findParam_ne _ _ h1]

theorem typedParams_findParam_typeName (kevt : Kevent) (typeName : String) :
    (typedParams kevt typeName).findParam kparams.HandleObjectTypeName
      = .ok ⟨kparams.HandleObjectTypeName, ParamType.AnsiString, Value.Str typeName⟩ := by
  unfold typedParams
  rw [Kparams.findParam_Remove_ne _ _ _ (by decide), Kparams.findParam_Append_eq]

theorem resolveType_error_decode {σ : Type} (env : Env σ) (h h1 : handleInterceptor σ)
    (kevt : Kevent) (typeID : Nat) (err : Err)
    (hr : resolveType env h (normalizeHandleID kevt) typeID = .error (h1, err)) :
    h1 = h ∧ err.isDecode = true := by
  obtain ⟨e, he⟩ := normalizeHandleID_not_hex kevt
  by_cases hmiss : h.typeStore.FindByID (typeID % 2 ^ 8) = ""
  · simp only [resolveType, hmiss, if_true, he, Except.error.injEq, Prod.mk.injEq] at hr
    obtain ⟨hh, hee⟩ := hr
    subst hee
    exact ⟨hh.symm, Kparams.GetHexAsUint32_error_isDecode _ _ _ he⟩
  · simp only [resolveType, hmiss, if_false] at hr
    simp at hr

theorem enrich_kparams {σ : Type} (env : Env σ) (h : handleInterceptor σ) (kevt : Kevent)
    (r : Enriched σ) (hr : enrich env h kevt = .ok r) :
    r.kevt.Kparams = (typedParams kevt r.typeName).replace kparams.HandleObjectName
      ParamType.AnsiString (Value.Str r.name) ∧
    ∃ typeID rawName,
      kevt.Kparams.GetUint16 kparams.HandleObjectTypeID = .ok typeID ∧
      kevt.Kparams.GetString kparams.HandleObjectName = .ok rawName ∧
      r.typeName = h.typeStore.FindByID (typeID % 2 ^ 8) ∧
      r.name = canonicalName env r.typeName rawName := by
  unfold enrich at hr
  simp only at hr
  split at hr
  · simp at hr
  · rename_i typeID hid
    split at hr
    · simp at hr
    · split at hr
      · simp at hr
      · rename_i h1 typeName hres
        obtain ⟨-, e2, -⟩ := resolveType_ok env h h1 kevt typeID typeName hres
        split at hr
        · simp at hr
        · rename_i rawName hraw
          split at hr
          · simp at hr
          · rename_i kpars hset
            simp only [Except.ok.injEq] at hr
            subst hr
            obtain ⟨k1, -⟩ := Kparams.Set_ok _ _ _ _ _ hset
            refine ⟨k1, typeID, rawName, ?_, ?_, e2, rfl⟩
            · simp only [Kparams.GetUint16] at hid ⊢
              rw [normalizeHandleID_findParam_ne _ _ (by decide)] at hid
              exact hid
            · have hraw2 : (typedParams kevt typeName).GetString kparams.HandleObjectName
                  = .ok rawName := hraw
              simp only [Kparams.GetString] at hraw2 ⊢
              rw [typedParams_findParam_ne _ _ _ (by decide) (by decide) (by decide)] at hraw2
              exact hraw2

theorem enrich_error_decode {σ : Type} (env : Env σ) (h : handleInterceptor σ)
    (kevt : Kevent) (out : Outcome σ) (hr : enrich env h kevt = .error out) :
    out.h = h ∧ out.cont = true ∧ ∃ e, out.err = some e ∧ e.isDecode = true := by
  unfold enrich at hr
  simp only at hr
  split at hr
  · rename_i e he
    simp only [Except.error.injEq] at hr
    subst hr
    exact ⟨rfl, rfl, e, rfl, Kparams.GetUint16_error_isDecode _ _ _ he⟩
  · split at hr
    · rename_i e he
      simp only [Except.error.injEq] at hr
      subst hr
      exact ⟨rfl, rfl, e, rfl, Kparams.GetHexAsUint64_error_isDecode _ _ _ he⟩
    · split at hr
      · rename_i h1 err hres
        simp only [Except.error.injEq] at hr
        subst hr
        obtain ⟨g1, g2⟩ := resolveType_error_decode env h h1 kevt _ err hres
        exact ⟨g1, rfl, err, rfl, g2⟩
      · rename_i h1 typeName hres
        obtain ⟨g1, -, -⟩ := resolveType_ok env h h1 kevt _ typeName hres
        split at hr
        · rename_i e he
          simp only [Except.error.injEq] at hr
          subst hr
          exact ⟨g1, rfl, e, rfl, Kparams.GetString_error_isDecode _ _ _ he⟩
        · split at hr
          · rename_i e he
            simp only [Except.error.injEq] at hr
            subst hr
            exact ⟨g1, rfl, e, rfl, Kparams.Set_error_isDecode _ _ _ _ _ he⟩
          · simp at hr

theorem enrich_typeID_error {σ : Type} (env : Env σ) (h : handleInterceptor σ)
    (kevt : Kevent) (e : Err)
    (he : kevt.Kparams.GetUint16 kparams.HandleObjectTypeID = .error e) :
    enrich env h kevt = .error ⟨h, normalizeHandleID kevt, true, some e⟩ := by
  have he2 : (normalizeHandleID kevt).Kparams.GetUint16 kparams.HandleObjectTypeID
      = .error e := by
    simp only [Kparams.GetUint16] at he ⊢
    rw [normalizeHandleID_findParam_ne _ _ (by decide)]
    exact he
  unfold enrich
  simp only [he2]

theorem enrich_object_error {σ : Type} (env : Env σ) (h : handleInterceptor σ)
    (kevt : Kevent) (typeID : Nat) (e : Err)
    (hid : kevt.Kparams.GetUint16 kparams.HandleObjectTypeID = .ok typeID)
    (he : kevt.Kparams.GetHexAsUint64 kparams.HandleObject = .error e) :
    enrich env h kevt = .error ⟨h, normalizeHandleID kevt, true, some e⟩ := by
  have hid2 : (normalizeHandleID kevt).Kparams.GetUint16 kparams.HandleObjectTypeID
      = .ok typeID := by
    simp only [Kparams.GetUint16] at hid ⊢
    rw [normalizeHandleID_findParam_ne _ _ (by decide)]
    exact hid
  have he2 : (normalizeHandleID kevt).Kparams.GetHexAsUint64 kparams.HandleObject
      = .error e := by
    rw [normalizeHandleID_object]
    exact he
  unfold enrich
  simp only [hid2, he2]

theorem enrich_name_error {σ : Type} (env : Env σ) (h : handleInterceptor σ)
    (kevt : Kevent) (typeID object : Nat) (e : Err)
    (hid : kevt.Kparams.GetUint16 kparams.HandleObjectTypeID = .ok typeID)
    (hobj : kevt.Kparams.GetHexAsUint64 kparams.HandleObject = .ok object)
    (hhit : h.typeStore.FindByID (typeID % 2 ^ 8) ≠ "")
    (he : kevt.Kparams.GetString kparams.HandleObjectName = .error e) :
    enrich env h kevt = .error
      ⟨h, { normalizeHandleID kevt with
            Kparams := typedParams kevt (h.typeStore.FindByID (typeID % 2 ^ 8)) },
        true, some e⟩ := by
  have hid2 : (normalizeHandleID kevt).Kparams.GetUint16 kparams.HandleObjectTypeID
      = .ok typeID := by
    simp only [Kparams.GetUint16] at hid ⊢
    rw [normalizeHandleID_findParam_ne _ _ (by decide)]
    exact hid
  have hobj2 : (normalizeHandleID kevt).Kparams.GetHexAsUint64 kparams.HandleObject
      = .ok object := by
    rw [normalizeHandleID_object]
    exact hobj
  have hres : resolveType env h (normalizeHandleID kevt) typeID
      = .ok (h, h.typeStore.FindByID (typeID % 2 ^ 8)) := by
    simp only [resolveType, hhit, if_false]
  have he2 : (typedParams kevt (h.typeStore.FindByID (typeID % 2 ^ 8))).GetString
      kparams.HandleObjectName = .error e := by
    simp only [Kparams.GetString] at he ⊢
    rw [typedParams_findParam_ne _ _ _ (by decide) (by decide) (by decide)]
    exact he
  unfold enrich
  simp only [hid2, hobj2, hres]
  unfold typedParams at he2
  simp only [he2]
  rfl

theorem Intercept_of_enrich_error {σ : Type} (env : Env σ) (h : handleInterceptor σ)
    (kevt : Kevent) (out : Outcome σ)
    (hty : kevt.Typ = Ktype.CreateHandle ∨ kevt.Typ = Ktype.CloseHandle)
    (hen : enrich env h kevt = .error out) : h.Intercept env kevt = out := by
  unfold handleInterceptor.Intercept
  rw [if_pos hty]
  simp only [hen]

theorem Intercept_kevt_of_enrich_ok {σ : Type} (env : Env σ) (h : handleInterceptor σ)
    (kevt : Kevent) (r : Enriched σ)
    (hty : kevt.Typ = Ktype.CreateHandle ∨ kevt.Typ = Ktype.CloseHandle)
    (hen : enrich env h kevt = .ok r) : (h.Intercept env kevt).kevt = r.kevt := by
  unfold handleInterceptor.Intercept
  rw [if_pos hty]
  simp only [hen]
  split
  · split <;> rfl
  · split
    · split
      · rfl
      · split
        · split <;> rfl
        · rfl
    · rfl

/-! ## Events of other types and events that do not decode -/

/-- C13: for an event whose type is neither CreateHandle nor CloseHandle, Intercept
returns that same event (type, PID, Seq and parameters unchanged) with continue=true and
no error, and leaves the deferred map, the object type cache and the handle snapshot
unchanged. -/
theorem Intercept_other_frame {σ : Type} (env : Env σ) (h : handleInterceptor σ)
    (kevt : Kevent) (h1 : kevt.Typ ≠ Ktype.CreateHandle) (h2 : kevt.Typ ≠ Ktype.CloseHandle) :
    (h.Intercept env kevt).kevt = kevt ∧
    (h.Intercept env kevt).kevt.Typ = kevt.Typ ∧
    (h.Intercept env kevt).kevt.PID = kevt.PID ∧
    (h.Intercept env kevt).kevt.Seq = kevt.Seq ∧
    (h.Intercept env kevt).kevt.Kparams = kevt.Kparams ∧
    (h.Intercept env kevt).cont = true ∧ (h.Intercept env kevt).err = none ∧
    (h.Intercept env kevt).h.defers = h.defers ∧
    (h.Intercept env kevt).h.typeStore = h.typeStore ∧
    (h.Intercept env kevt).h.hsnap = h.hsnap ∧
    (h.Intercept env kevt).h.deferredKevts = h.deferredKevts := by
  rw [Intercept_other env h kevt h1 h2]
  exact ⟨rfl, rfl, rfl, rfl, rfl, rfl, rfl, rfl, rfl, rfl, rfl⟩

/-- Instance of C13: `sampleOther` passes through an interceptor with a pending event. -/
theorem Intercept_other_frame_witness :
    sampleOther.Typ ≠ Ktype.CreateHandle ∧ sampleOther.Typ ≠ Ktype.CloseHandle ∧
    ((sampleState.Intercept sampleEnv sampleCreate).h.Intercept sampleEnv sampleOther).kevt
      = sampleOther ∧
    ((sampleState.Intercept sampleEnv sampleCreate).h.Intercept sampleEnv sampleOther).cont
      = true ∧
    ((sampleState.Intercept sampleEnv sampleCreate).h.Intercept sampleEnv
      sampleOther).h.defers = [(4096, sampleCreateEnriched)] :=
  have key := Intercept_other_frame sampleEnv (sampleState.Intercept sampleEnv sampleCreate).h
    sampleOther (by decide) (by decide)
  ⟨by decide, by decide, key.1, key.2.2.2.2.2.1, key.2.2.2.2.2.2.2.1.trans (by decide)⟩

/-- C14: for a CreateHandle or CloseHandle event in which the object-type-id,
object-address or object-name parameter is missing or of the wrong type, Intercept
returns a decode error to the caller (the error of the first of these reads that fails,
provided the type resolves before the name is read), and leaves the deferred map and the
handle snapshot unchanged and sends nothing on the deferred-events channel. -/
theorem Intercept_decode_error {σ : Type} (env : Env σ) (h : handleInterceptor σ)
    (kevt : Kevent) (hty : kevt.Typ = Ktype.CreateHandle ∨ kevt.Typ = Ktype.CloseHandle)
    (hbad : (∃ e, kevt.Kparams.GetUint16 kparams.HandleObjectTypeID = .error e) ∨
      (∃ e, kevt.Kparams.GetHexAsUint64 kparams.HandleObject = .error e) ∨
      (∃ e, kevt.Kparams.GetString kparams.HandleObjectName = .error e)) :
    (∃ e, (h.Intercept env kevt).err = some e ∧ e.isDecode = true) ∧
    (h.Intercept env kevt).cont = true ∧
    (h.Intercept env kevt).h.defers = h.defers ∧
    (h.Intercept env kevt).h.hsnap = h.hsnap ∧
    (h.Intercept env kevt).h.deferredKevts = h.deferredKevts ∧
    (∀ e, kevt.Kparams.GetUint16 kparams.HandleObjectTypeID = .error e →
      (h.Intercept env kevt).err = some e) ∧
    (∀ typeID e, kevt.Kparams.GetUint16 kparams.HandleObjectTypeID = .ok typeID →
      kevt.Kparams.GetHexAsUint64 kparams.HandleObject = .error e →
      (h.Intercept env kevt).err = some e) ∧
    (∀ typeID object e, kevt.Kparams.GetUint16 kparams.HandleObjectTypeID = .ok typeID →
      kevt.Kparams.GetHexAsUint64 kparams.HandleObject = .ok object →
      h.typeStore.FindByID (typeID % 2 ^ 8) ≠ "" →
      kevt.Kparams.GetString kparams.HandleObjectName = .error e →
      (h.Intercept env kevt).err = some e) := by
  have hfail : ∃ out, enrich env h kevt = .error out := by
    cases hen : enrich env h kevt with
    | error out => exact ⟨out, rfl⟩
    | ok r =>
      exfalso
      obtain ⟨-, typeID, rawName, p1, p2, -, -⟩ := enrich_kparams env h kevt r hen
      have p3 := enrich_object env h kevt r hen
      rcases hbad with ⟨e, he⟩ | ⟨e, he⟩ | ⟨e, he⟩
      · rw [p1] at he
        simp at he
      · rw [p3] at he
        simp at he
      · rw [p2] at he
        simp at he
  obtain ⟨out, hout⟩ := hfail
  obtain ⟨g1, g2, g3⟩ := enrich_error_decode env h kevt out hout
  refine ⟨?_, ?_, ?_, ?_, ?_, ?_, ?_, ?_⟩
  · rw [Intercept_of_enrich_error env h kevt out hty hout]
    exact g3
  · rw [Intercept_of_enrich_error env h kevt out hty hout]
    exact g2
  · rw [Intercept_of_enrich_error env h kevt out hty hout, g1]
  · rw [Intercept_of_enrich_error env h kevt out hty hout, g1]
  · rw [Intercept_of_enrich_error env h kevt out hty hout, g1]
  · intro e he
    rw [Intercept_of_enrich_error env h kevt _ hty (enrich_typeID_error env h kevt e he)]
  · intro typeID e hid he
    rw [Intercept_of_enrich_error env h kevt _ hty
      (enrich_object_error env h kevt typeID e hid he)]
  · intro typeID object e hid hobj hhit he
    rw [Intercept_of_enrich_error env h kevt _ hty
      (enrich_name_error env h kevt typeID object e hid hobj hhit he)]

/-- Instance of C14: `sampleCreateNoName` lacks the object-name parameter. -/
theorem Intercept_decode_error_witness :
    sampleCreateNoName.Kparams.GetString kparams.HandleObjectName
      = .error (Err.ParameterNotFound kparams.HandleObjectName) ∧
    (sampleState.Intercept sampleEnv sampleCreateNoName).err
      = some (Err.ParameterNotFound kparams.HandleObjectName) ∧
    (sampleState.Intercept sampleEnv sampleCreateNoName).cont = true ∧
    (sampleState.Intercept sampleEnv sampleCreateNoName).h.defers = sampleState.defers :=
  have key := Intercept_decode_error sampleEnv sampleState sampleCreateNoName (Or.inl rfl)
    (Or.inr (Or.inr ⟨_, rfl⟩))
  ⟨rfl, key.2.2.2.2.2.2.2 7 16384 _ rfl rfl (by decide) rfl, key.2.1, key.2.2.1⟩

/-! ## Names of registry keys -/

/-- C18: for a handle event whose resolved type is Key, let FormatKey of the raw name
yield root key R and relative path P. If R is valid, the event's object name becomes R's
string when P is empty (no trailing backslash) and R's string followed by a backslash
and P otherwise; if R is the invalid root key, the object name is left as the raw
name. -/
theorem Intercept_key_name {σ : Type} (env : Env σ) (h : handleInterceptor σ)
    (kevt : Kevent) (r : Enriched σ)
    (hty : kevt.Typ = Ktype.CreateHandle ∨ kevt.Typ = Ktype.CloseHandle)
    (hen : enrich env h kevt = .ok r) (hkey : r.typeName = handle.Key) :
    ∃ rawName, kevt.Kparams.GetString kparams.HandleObjectName = .ok rawName ∧
      (h.Intercept env kevt).kevt.Kparams.GetString kparams.HandleObjectName = .ok r.name ∧
      ((env.FormatKey rawName).1 = registry.Key.InvalidKey → r.name = rawName) ∧
      ((env.FormatKey rawName).1 ≠ registry.Key.InvalidKey → (env.FormatKey rawName).2 = "" →
        r.name = (env.FormatKey rawName).1.String) ∧
      ((env.FormatKey rawName).1 ≠ registry.Key.InvalidKey → (env.FormatKey rawName).2 ≠ "" →
        r.name = (env.FormatKey rawName).1.String ++ "\\" ++ (env.FormatKey rawName).2) := by
  obtain ⟨-, typeID, rawName, -, p2, -, p4⟩ := enrich_kparams env h kevt r hen
  obtain ⟨-, -, -, -, -, -, -, -, p5⟩ := enrich_inv env h kevt r hen
  refine ⟨rawName, p2, ?_, ?_, ?_, ?_⟩
  · rw [Intercept_kevt_of_enrich_ok env h kevt r hty hen]
    exact p5
  · intro hinv
    rw [p4, hkey]
    simp [canonicalName, hinv]
  · intro hv hp
    rw [p4, hkey]
    simp [canonicalName, hv, hp]
  · intro hv hp
    rw [p4, hkey]
    simp [canonicalName, hv, hp]

/-- Instance of C18: `\Registry\Machine\Software` becomes `HKEY_LOCAL_MACHINE\Software`. -/
theorem Intercept_key_name_witness :
    enrich registryEnv keyState sampleCloseKey
      = .ok ⟨keyState, sampleCloseKeyEnriched, 12288, handle.Key,
          "HKEY_LOCAL_MACHINE\\Software"⟩ ∧
    (keyState.Intercept registryEnv sampleCloseKey).kevt.Kparams.GetString
      kparams.HandleObjectName = .ok "HKEY_LOCAL_MACHINE\\Software" :=
  have key := Intercept_key_name registryEnv keyState sampleCloseKey
    ⟨keyState, sampleCloseKeyEnriched, 12288, handle.Key, "HKEY_LOCAL_MACHINE\\Software"⟩
    (Or.inr rfl) rfl rfl
  ⟨rfl, key.choose_spec.2.1⟩

/-! ## Where pending and emitted events come from -/

theorem Intercept_defers_mem {σ : Type} (env : Env σ) (h : handleInterceptor σ)
    (kevt : Kevent) (p : Nat × Kevent) (hp : p ∈ (h.Intercept env kevt).h.defers) :
    p ∈ h.defers ∨
    (kevt.Typ = Ktype.CreateHandle ∧ ∃ r, enrich env h kevt = .ok r ∧
      p = (r.object, r.kevt) ∧ r.name = "" ∧
      (r.typeName = handle.Key ∨ r.typeName = handle.File ∨
        r.typeName = handle.Desktop ∨ r.typeName = handle.SymbolicLink)) := by
  by_cases hty : kevt.Typ = Ktype.CreateHandle ∨ kevt.Typ = Ktype.CloseHandle
  · cases hen : enrich env h kevt with
    | error out =>
      rw [Intercept_of_enrich_error env h kevt out hty hen] at hp
      rw [(enrich_error_frame env h kevt out hen).2.1] at hp
      exact Or.inl hp
    | ok r =>
      obtain ⟨f1, -, -, -, -, g2, -, -⟩ := enrich_frame env h kevt r hen
      rcases hty with hc | hc
      · by_cases hd : r.name = "" ∧ (r.typeName = handle.Key ∨ r.typeName = handle.File ∨
            r.typeName = handle.Desktop ∨ r.typeName = handle.SymbolicLink)
        · rw [Intercept_create_defer_eq env h kevt r hc hen hd.1 hd.2] at hp
          simp only [defersStore, defersDelete, List.mem_cons, List.mem_filter] at hp
          rcases hp with hp | hp
          · exact Or.inr ⟨hc, r, rfl, hp, hd.1, hd.2⟩
          · rw [g2] at hp
            exact Or.inl hp.1
        · rw [Intercept_create_write_eq env h kevt r hc hen hd] at hp
          simp only at hp
          rw [g2] at hp
          exact Or.inl hp
      · cases hl : defersLookup r.h.defers r.object with
        | none =>
          rw [Intercept_close_unmatched_eq env h kevt r hc hen hl] at hp
          simp only [sweep, List.mem_filter] at hp
          rw [g2] at hp
          exact Or.inl hp.1
        | some hk =>
          have hsub : (h.Intercept env kevt).h.defers = defersDelete r.h.defers r.object := by
            have hrt : ¬ r.kevt.Typ = Ktype.CreateHandle := by
              rw [f1, hc]
              decide
            unfold handleInterceptor.Intercept
            rw [if_pos (Or.inr hc)]
            simp only [hen]
            rw [if_neg hrt]
            simp only [hl]
            split
            · rfl
            · split
              · split <;> rfl
              · rfl
          rw [hsub] at hp
          simp only [defersDelete, List.mem_filter] at hp
          rw [g2] at hp
          exact Or.inl hp.1
  · have h1 : kevt.Typ ≠ Ktype.CreateHandle := fun hc => hty (Or.inl hc)
    have h2 : kevt.Typ ≠ Ktype.CloseHandle := fun hc => hty (Or.inr hc)
    rw [Intercept_other env h kevt h1 h2] at hp
    exact Or.inl hp

theorem Intercept_emits {σ : Type} (env : Env σ) (h : handleInterceptor σ)
    (kevt : Kevent) :
    (h.Intercept env kevt).h.deferredKevts = h.deferredKevts ∨
    (kevt.Typ = Ktype.CloseHandle ∧ ∃ r hk, enrich env h kevt = .ok r ∧
      defersLookup h.defers r.object = some hk ∧
      (h.Intercept env kevt).h.deferredKevts = h.deferredKevts ++ [withName hk r.name]) := by
  by_cases hty : kevt.Typ = Ktype.CreateHandle ∨ kevt.Typ = Ktype.CloseHandle
  · cases hen : enrich env h kevt with
    | error out =>
      rw [Intercept_of_enrich_error env h kevt out hty hen]
      exact Or.inl (enrich_error_frame env h kevt out hen).2.2.1
    | ok r =>
      obtain ⟨f1, -, -, -, -, g2, g3, -⟩ := enrich_frame env h kevt r hen
      rcases hty with hc | hc
      · by_cases hd : r.name = "" ∧ (r.typeName = handle.Key ∨ r.typeName = handle.File ∨
            r.typeName = handle.Desktop ∨ r.typeName = handle.SymbolicLink)
        · rw [Intercept_create_defer_eq env h kevt r hc hen hd.1 hd.2]
          exact Or.inl g3
        · rw [Intercept_create_write_eq env h kevt r hc hen hd]
          exact Or.inl g3
      · cases hl : defersLookup r.h.defers r.object with
        | none =>
          rw [Intercept_close_unmatched_eq env h kevt r hc hen hl]
          exact Or.inl g3
        | some hk =>
          by_cases hn : hk.Kparams.has kparams.HandleObjectName = true
          · obtain ⟨-, m2, -, -⟩ :=
              Intercept_close_matched_state env h kevt r hk hc hen hl hn
            refine Or.inr ⟨hc, r, hk, rfl, ?_, ?_⟩
            · rw [← g2]
              exact hl
            · rw [m2, g3]
          · left
            have hrt : ¬ r.kevt.Typ = Ktype.CreateHandle := by
              rw [f1, hc]
              decide
            have hset : ∃ err, hk.Kparams.Set kparams.HandleObjectName (Value.Str r.name)
                ParamType.AnsiString = .error err := by
              cases hs : hk.Kparams.Set kparams.HandleObjectName (Value.Str r.name)
                  ParamType.AnsiString with
              | error err => exact ⟨err, rfl⟩
              | ok kp => exact absurd (Kparams.Set_ok _ _ _ _ _ hs).2 (by
                  rw [(Kparams.Set_ok _ _ _ _ _ hs).1, Kparams.has_replace]
                  exact hn)
            obtain ⟨err, herr⟩ := hset
            unfold handleInterceptor.Intercept
            rw [if_pos (Or.inr hc)]
            simp only [hen]
            rw [if_neg hrt]
            simp only [hl, herr]
            exact g3
  · have h1 : kevt.Typ ≠ Ktype.CreateHandle := fun hc => hty (Or.inl hc)
    have h2 : kevt.Typ ≠ Ktype.CloseHandle := fun hc => hty (Or.inr hc)
    rw [Intercept_other env h kevt h1 h2]
    exact Or.inl rfl

theorem enrich_stored_event {σ : Type} (env : Env σ) (h : handleInterceptor σ)
    (kevt : Kevent) (r : Enriched σ) (hen : enrich env h kevt = .ok r) :
    r.kevt.Kparams.GetHexAsUint64 kparams.HandleObject = .ok r.object ∧
    r.kevt.Kparams.GetString kparams.HandleObjectName = .ok r.name ∧
    r.kevt.Kparams.GetString kparams.HandleObjectTypeName = .ok r.typeName := by
  obtain ⟨k1, -⟩ := enrich_kparams env h kevt r hen
  obtain ⟨-, -, -, -, -, -, -, -, p5⟩ := enrich_inv env h kevt r hen
  have hobj := enrich_object env h kevt r hen
  refine ⟨?_, p5, ?_⟩
  · simp only [Kparams.GetHexAsUint64, k1] at hobj ⊢
    rw [Kparams.findParam_replace_ne _ _ _ _ _ (by decide),
      typedParams_findParam_ne _ _ _ (by decide) (by decide) (by decide)]
    exact hobj
  · simp only [Kparams.GetString, k1]
    rw [Kparams.findParam_replace_ne _ _ _ _ _ (by decide), typedParams_findParam_typeName]

theorem DefersInv_new {σ : Type} (hsnap : σ) (typeStore : ObjectTypeStore)
    (deferredKevts : List Kevent) :
    DefersInv (newHandleInterceptor hsnap typeStore deferredKevts) := by
  intro p hp
  simp [newHandleInterceptor] at hp

theorem DefersInv_Intercept {σ : Type} (env : Env σ) (h : handleInterceptor σ)
    (kevt : Kevent) (hinv : DefersInv h) : DefersInv (h.Intercept env kevt).h := by
  intro p hp
  rcases Intercept_defers_mem env h kevt p hp with hold | ⟨hc, r, hen, hpe, hname, htn⟩
  · exact hinv p hold
  · obtain ⟨s1, s2, s3⟩ := enrich_stored_event env h kevt r hen
    subst hpe
    refine ⟨?_, s1, ?_, ?_⟩
    · rw [(enrich_frame env h kevt r hen).1, hc]
    · rw [← hname]
      exact s2
    · rcases htn with ht | ht | ht | ht
      · exact Or.inl (ht ▸ s3)
      · exact Or.inr (Or.inl (ht ▸ s3))
      · exact Or.inr (Or.inr (Or.inl (ht ▸ s3)))
      · exact Or.inr (Or.inr (Or.inr (ht ▸ s3)))

theorem DefersInv_runIntercept {σ : Type} (h : handleInterceptor σ)
    (calls : List (Env σ × Kevent)) (hinv : DefersInv h) :
    DefersInv (runIntercept h calls) := by
  induction calls generalizing h with
  | nil => exact hinv
  | cons c rest ih =>
    simp only [runIntercept, List.foldl_cons] at ih ⊢
    exact ih _ (DefersInv_Intercept c.1 h c.2 hinv)

theorem PendingNamed_of_DefersInv {σ : Type} (h : handleInterceptor σ) (hinv : DefersInv h) :
    PendingNamed h := by
  intro p hp
  exact Kparams.has_of_GetString _ _ _ (hinv p hp).2.2.1

/-- C20: invariant of the deferred map. After any sequence of Intercept calls on an
interceptor created with an empty map, every pending event is of type CreateHandle, is
stored under the key equal to its own object-address parameter, has an object-name
parameter whose value is the empty string, and has a type-name parameter equal to one of
Key, File, Desktop or SymbolicLink. -/
theorem defers_invariant {σ : Type} (hsnap : σ) (typeStore : ObjectTypeStore)
    (deferredKevts : List Kevent) (calls : List (Env σ × Kevent)) :
    ∀ p ∈ (runIntercept (newHandleInterceptor hsnap typeStore deferredKevts) calls).defers,
      p.2.Typ = Ktype.CreateHandle ∧
      p.2.Kparams.GetHexAsUint64 kparams.HandleObject = .ok p.1 ∧
      p.2.Kparams.GetString kparams.HandleObjectName = .ok "" ∧
      (p.2.Kparams.GetString kparams.HandleObjectTypeName = .ok handle.Key ∨
        p.2.Kparams.GetString kparams.HandleObjectTypeName = .ok handle.File ∨
        p.2.Kparams.GetString kparams.HandleObjectTypeName = .ok handle.Desktop ∨
        p.2.Kparams.GetString kparams.HandleObjectTypeName = .ok handle.SymbolicLink) :=
  DefersInv_runIntercept _ calls (DefersInv_new hsnap typeStore deferredKevts)

/-! ## Handles of a process -/

theorem removeHandleLoop_none (handles : List Handle) (num : Nat) (rest : List Handle)
    (i : Nat) (hr : ∀ x ∈ rest, x.Num ≠ num) :
    removeHandleLoop handles num i rest = handles := by
  induction rest generalizing i with
  | nil => rfl
  | cons x xs ih =>
    have hx : x.Num ≠ num := hr x (List.mem_cons_self _ _)
    simp only [removeHandleLoop, hx, if_false]
    exact ih (i + 1) (fun y hy => hr y (List.mem_cons_of_mem _ hy))

theorem removeHandleLoop_found (handles : List Handle) (num : Nat) (h : Handle)
    (post mid pre : List Handle) (hsplit : handles = pre ++ (mid ++ h :: post))
    (hh : h.Num = num) (hm : ∀ x ∈ mid, x.Num ≠ num) :
    removeHandleLoop handles num pre.length (mid ++ h :: post) = pre ++ (mid ++ post) := by
  induction mid generalizing pre with
  | nil =>
    simp only [List.nil_append, removeHandleLoop, hh, if_true]
    rw [hsplit]
    simp
  | cons m rest ih =>
    have hmn : m.Num ≠ num := hm m (List.mem_cons_self _ _)
    simp only [List.cons_append, removeHandleLoop, hmn, if_false]
    have := ih (pre ++ [m]) (by rw [hsplit]; simp)
      (fun y hy => hm y (List.mem_cons_of_mem _ hy))
    simp only [List.length_append, List.length_singleton] at this
    show removeHandleLoop handles num (pre.length + 1) (rest ++ h :: post) = _
    rw [this]
    simp

/-- C19: RemoveHandle(n) removes exactly the first handle whose number equals n and keeps
all other handles in their original relative order; when no handle has number n the list
is unchanged. Nothing but the handle list is touched. -/
theorem RemoveHandle_first (ps : PS) (num : Nat) :
    ((∀ x ∈ ps.Handles, x.Num ≠ num) → (ps.RemoveHandle num).Handles = ps.Handles) ∧
    (∀ pre h post, ps.Handles = pre ++ h :: post → h.Num = num →
      (∀ x ∈ pre, x.Num ≠ num) → (ps.RemoveHandle num).Handles = pre ++ post) ∧
    ps.RemoveHandle num = { ps with Handles := (ps.RemoveHandle num).Handles } := by
  refine ⟨?_, ?_, rfl⟩
  · intro hr
    exact removeHandleLoop_none ps.Handles num ps.Handles 0 hr
  · intro pre h post hsplit hh hpre
    have := removeHandleLoop_found ps.Handles num h post pre [] (by simpa using hsplit) hh hpre
    simp only [PS.RemoveHandle]
    rw [hsplit] at this ⊢
    simpa using this

/-- Instance of C19: of two handles numbered 1 only the first is removed. -/
theorem RemoveHandle_first_witness :
    (({ samplePS with Handles := [sampleHandle 2 "b", sampleHandle 1 "a", sampleHandle 3 "c",
        sampleHandle 1 "d"] } : PS).RemoveHandle 1).Handles
      = [sampleHandle 2 "b"] ++ [sampleHandle 3 "c", sampleHandle 1 "d"] :=
  (RemoveHandle_first { samplePS with Handles := [sampleHandle 2 "b", sampleHandle 1 "a",
      sampleHandle 3 "c", sampleHandle 1 "d"] } 1).2.1
    [sampleHandle 2 "b"] (sampleHandle 1 "a") [sampleHandle 3 "c", sampleHandle 1 "d"]
    rfl rfl (by decide)

/-! ## Locking -/

/-- C17 (the code at the failing input): `AddThread` and `RemoveThread` write the thread
map between `ps.mu.Lock()` and `ps.mu.Unlock()`; `AddHandle`, `RemoveHandle`, `AddModule`
and `RemoveModule` write the handle and module lists without taking the lock. -/
theorem collection_writes_unguarded :
    writesGuarded false (samplePS.AddThreadOps
      { Tid := 1, Pid := 4242, IOPrio := 0, BasePrio := 0, PagePrio := 0, UstackBase := 0,
        UstackLimit := 0, KstackBase := 0, KstackLimit := 0, Entrypoint := 0 }) = true ∧
    writesGuarded false (samplePS.RemoveThreadOps 1) = true ∧
    writesGuarded false (samplePS.AddHandleOps (sampleHandle 1 "a")) = false ∧
    writesGuarded false ((samplePS.AddHandle (sampleHandle 1 "a")).RemoveHandleOps 1) = false ∧
    writesGuarded false (samplePS.AddModuleOps filepathBase kernel32) = false ∧
    writesGuarded false (samplePS.RemoveModuleOps kernel32.Name) = false := by
  decide

/-! ## Access rights of the handle duplication -/

theorem AllAccess_not_queryOnly (queryRights : Nat) :
    syshandle.Access.AllAccess.queryOnly queryRights = false := rfl

/-- The step of lines 77-93 taken on its own, on an event whose handle identifier reads
as hex: on a store miss it requests one duplication, and the request names
`syshandle.AllAccess`. -/
theorem resolveType_duplicate_access {σ : Type} (env : Env σ) (h : handleInterceptor σ)
    (kevt : Kevent) (typeID rawHandle : Nat)
    (hmiss : h.typeStore.FindByID (typeID % 2 ^ 8) = "")
    (hraw : kevt.Kparams.GetHexAsUint32 kparams.HandleID = .ok rawHandle) :
    ∃ rest, (resolveTypeState env h kevt typeID).syscalls
        = h.syscalls ++ Syscall.Duplicate rawHandle kevt.PID syshandle.Access.AllAccess :: rest ∧
      ∀ hd pid access, Syscall.Duplicate hd pid access ∉ rest := by
  unfold resolveTypeState resolveType
  simp only [hmiss, if_true, hraw]
  cases hd : env.Duplicate rawHandle kevt.PID syshandle.Access.AllAccess with
  | error err => exact ⟨[], by simp, by simp⟩
  | ok dup =>
    cases hq : env.QueryType dup with
    | error err =>
      exact ⟨[Syscall.QueryType dup, Syscall.Close dup], by simp [hq], by simp⟩
    | ok typeName =>
      exact ⟨[Syscall.QueryType dup, Syscall.Close dup], by simp [hq], by simp⟩

theorem Intercept_syscalls {σ : Type} (env : Env σ) (h : handleInterceptor σ)
    (kevt : Kevent) : (h.Intercept env kevt).h.syscalls = h.syscalls := by
  by_cases hty : kevt.Typ = Ktype.CreateHandle ∨ kevt.Typ = Ktype.CloseHandle
  · cases hen : enrich env h kevt with
    | error out =>
      rw [Intercept_of_enrich_error env h kevt out hty hen,
        (enrich_error_decode env h kevt out hen).1]
    | ok r =>
      have hr : r.h.syscalls = h.syscalls := by
        obtain ⟨-, -, -, e, -⟩ := enrich_inv env h kevt r hen
        rw [e]
      unfold handleInterceptor.Intercept
      rw [if_pos hty]
      simp only [hen]
      split
      · split
        · exact hr
        · exact hr
      · split
        · split
          · exact hr
          · split
            · split
              · exact hr
              · exact hr
            · exact hr
        · exact hr
  · have h1 : kevt.Typ ≠ Ktype.CreateHandle := fun hc => hty (Or.inl hc)
    have h2 : kevt.Typ ≠ Ktype.CloseHandle := fun hc => hty (Or.inr hc)
    rw [Intercept_other env h kevt h1 h2]

theorem PSHeap.deref_mem (heap : PSHeap) (addr : Nat) (obj : PSObject)
    (hd : heap.deref addr = some obj) : ∃ e ∈ heap, e.1 = addr := by
  unfold PSHeap.deref at hd
  split at hd
  · rename_i e he
    exact ⟨e, List.mem_of_find?_eq_some he, by simpa using List.find?_some he⟩
  · simp at hd

theorem unvisited_le (heap : PSHeap) (addr : Nat) (visited : List Nat) :
    (heap.filter (fun e => decide (e.1 ∉ addr :: visited))).length
      ≤ (heap.filter (fun e => decide (e.1 ∉ visited))).length := by
  induction heap with
  | nil => simp
  | cons x xs ih =>
    by_cases h1 : x.1 ∈ visited
    · have h2 : x.1 ∈ addr :: visited := List.mem_cons_of_mem _ h1
      simp only [List.filter, h1, h2, not_true_eq_false, decide_False]
      exact ih
    · by_cases h2 : x.1 ∈ addr :: visited
      · simp only [List.filter, h1, h2, not_true_eq_false, not_false_eq_true, decide_False,
          decide_True, List.length_cons]
        omega
      · simp only [List.filter, h1, h2, not_false_eq_true, decide_True, List.length_cons]
        omega

theorem unvisited_lt (heap : PSHeap) (addr : Nat) (visited : List Nat)
    (hmem : ∃ e ∈ heap, e.1 = addr) (hnv : addr ∉ visited) :
    (heap.filter (fun e => decide (e.1 ∉ addr :: visited))).length
      < (heap.filter (fun e => decide (e.1 ∉ visited))).length := by
  induction heap with
  | nil =>
    obtain ⟨e, he, -⟩ := hmem
    simp at he
  | cons x xs ih =>
    by_cases hx : x.1 = addr
    · have h1 : x.1 ∉ visited := hx ▸ hnv
      have h2 : x.1 ∈ addr :: visited := hx ▸ List.mem_cons_self _ _
      have hle := unvisited_le xs addr visited
      simp only [List.filter, h1, h2, not_true_eq_false, not_false_eq_true, decide_False,
        decide_True, List.length_cons]
      omega
    · have hrest : ∃ e ∈ xs, e.1 = addr := by
        obtain ⟨e, he, hea⟩ := hmem
        rcases List.mem_cons.mp he with h0 | h0
        · exact absurd (h0 ▸ hea) hx
        · exact ⟨e, h0, hea⟩
      have hlt := ih hrest
      by_cases h1 : x.1 ∈ visited
      · have h2 : x.1 ∈ addr :: visited := List.mem_cons_of_mem _ h1
        simp only [List.filter, h1, h2, not_true_eq_false, decide_False]
        exact hlt
      · have h2 : x.1 ∉ addr :: visited := by
          intro hc
          rcases List.mem_cons.mp hc with h0 | h0
          · exact hx h0
          · exact h1 h0
        simp only [List.filter, h1, h2, not_false_eq_true, decide_True, List.length_cons]
        omega

theorem walkLoop_total (heap : PSHeap) (fuel : Nat) (visited : List Nat) (cur : Option Nat)
    (hfuel : (heap.filter (fun e => decide (e.1 ∉ visited))).length < fuel) :
    ∃ procs, walkLoop heap fuel visited cur = some procs ∧
      procs.length ≤ (heap.filter (fun e => decide (e.1 ∉ visited))).length := by
  induction fuel generalizing visited cur with
  | zero => omega
  | succ n ih =>
    cases cur with
    | none => exact ⟨[], rfl, Nat.zero_le _⟩
    | some addr =>
      by_cases hv : addr ∈ visited
      · exact ⟨[], by simp [walkLoop, hv], Nat.zero_le _⟩
      · cases hd : heap.deref addr with
        | none => exact ⟨[], by simp [walkLoop, hv, hd], Nat.zero_le _⟩
        | some obj =>
          have hlt := unvisited_lt heap addr visited (PSHeap.deref_mem heap addr obj hd) hv
          obtain ⟨procs, hp, hlen⟩ := ih (addr :: visited) obj.Parent (by omega)
          refine ⟨obj.ps :: procs, ?_, ?_⟩
          · simp [walkLoop, hv, hd, hp]
          · simp only [List.length_cons]
            omega

/-- C15: for every process state, including one whose parent chain forms a cycle,
Ancestors terminates after a bounded number of steps and returns a finite list: one step
more than there are process states in memory always suffices, and the list has at most
that many entries. -/
theorem Ancestors_terminates (heap : PSHeap) (addr : Nat) (fuel : Nat)
    (hfuel : heap.length < fuel) :
    ∃ ancestors, PS.Ancestors heap fuel addr = some ancestors ∧
      ancestors.length ≤ heap.length := by
  have hle : ∀ visited : List Nat,
      (heap.filter (fun e => decide (e.1 ∉ visited))).length ≤ heap.length :=
    fun visited => List.length_filter_le _ _
  unfold PS.Ancestors Walk
  cases hd : heap.deref addr with
  | none => exact ⟨[], rfl, Nat.zero_le _⟩
  | some obj =>
    obtain ⟨procs, hp, hlen⟩ := walkLoop_total heap fuel [addr] obj.Parent
      (Nat.lt_of_le_of_lt (hle [addr]) hfuel)
    refine ⟨procs.map (fun proc => proc.Name ++ " (" ++ toString proc.PID ++ ")"), ?_, ?_⟩
    · simp only [hp]
    · simp only [List.length_map]
      exact Nat.le_trans hlen (hle [addr])

/-- Instance of C15: in `cyclicHeap` the parent chain of `cmd.exe` runs into a cycle, and
Ancestors returns the two parents. -/
theorem Ancestors_terminates_witness :
    cyclicHeap.length < 4 ∧
    PS.Ancestors cyclicHeap 4 1 = some ["explorer.exe (600)", "winlogon.exe (512)"] ∧
    ∃ ancestors, PS.Ancestors cyclicHeap 4 1 = some ancestors ∧
      ancestors.length ≤ cyclicHeap.length :=
  ⟨by decide, by decide, Ancestors_terminates cyclicHeap 1 4 (by decide)⟩

/-! ## Sequence numbers of pending and emitted events -/

theorem runIntercept_cons {σ : Type} (h : handleInterceptor σ) (c : Env σ × Kevent)
    (rest : List (Env σ × Kevent)) :
    runIntercept h (c :: rest) = runIntercept (h.Intercept c.1 c.2).h rest := rfl

theorem runIntercept_append {σ : Type} (h : handleInterceptor σ)
    (a b : List (Env σ × Kevent)) :
    runIntercept h (a ++ b) = runIntercept (runIntercept h a) b := by
  simp [runIntercept, List.foldl_append]

theorem emittedBy_eq {σ : Type} (h : handleInterceptor σ) (calls : List (Env σ × Kevent))
    (new : List Kevent)
    (hnew : (runIntercept h calls).deferredKevts = h.deferredKevts ++ new) :
    emittedBy h calls = new := by
  simp [emittedBy, hnew]

theorem Intercept_seq_absent {σ : Type} (env : Env σ) (h : handleInterceptor σ)
    (kevt : Kevent) (q : Nat) (hJ : ∀ p ∈ h.defers, p.2.Seq ≠ q) (hk : kevt.Seq ≠ q) :
    (∀ p ∈ (h.Intercept env kevt).h.defers, p.2.Seq ≠ q) ∧
    ∃ new, (h.Intercept env kevt).h.deferredKevts = h.deferredKevts ++ new ∧
      ∀ e ∈ new, e.Seq ≠ q := by
  constructor
  · intro p hp
    rcases Intercept_defers_mem env h kevt p hp with hold | ⟨-, r, hen, hpe, -, -⟩
    · exact hJ p hold
    · rw [hpe]
      show r.kevt.Seq ≠ q
      rw [(enrich_frame env h kevt r hen).2.2.1]
      exact hk
  · rcases Intercept_emits env h kevt with hsame | ⟨-, r, hkv, -, hl, hem⟩
    · exact ⟨[], by simp [hsame], by simp⟩
    · refine ⟨[withName hkv r.name], hem, ?_⟩
      intro e he
      simp only [List.mem_singleton] at he
      subst he
      exact hJ (r.object, hkv) (defersLookup_mem _ _ _ hl)

theorem Intercept_seq_only_at {σ : Type} (env : Env σ) (h : handleInterceptor σ)
    (kevt : Kevent) (q object : Nat)
    (hI : ∀ p ∈ h.defers, p.2.Seq = q → p.1 = object) (hk : kevt.Seq ≠ q)
    (hnc : kevt.Typ = Ktype.CloseHandle →
      kevt.Kparams.GetHexAsUint64 kparams.HandleObject ≠ .ok object) :
    (∀ p ∈ (h.Intercept env kevt).h.defers, p.2.Seq = q → p.1 = object) ∧
    ∃ new, (h.Intercept env kevt).h.deferredKevts = h.deferredKevts ++ new ∧
      ∀ e ∈ new, e.Seq ≠ q := by
  constructor
  · intro p hp hq
    rcases Intercept_defers_mem env h kevt p hp with hold | ⟨-, r, hen, hpe, -, -⟩
    · exact hI p hold hq
    · exfalso
      rw [hpe] at hq
      have : r.kevt.Seq = q := hq
      rw [(enrich_frame env h kevt r hen).2.2.1] at this
      exact hk this
  · rcases Intercept_emits env h kevt with hsame | ⟨hc, r, hkv, hen, hl, hem⟩
    · exact ⟨[], by simp [hsame], by simp⟩
    · refine ⟨[withName hkv r.name], hem, ?_⟩
      intro e he
      simp only [List.mem_singleton] at he
      subst he
      intro hq
      have hobj := hI (r.object, hkv) (defersLookup_mem _ _ _ hl) hq
      have := enrich_object env h kevt r hen
      rw [show r.object = object from hobj] at this
      exact hnc hc this

theorem run_seq_absent {σ : Type} (h : handleInterceptor σ) (calls : List (Env σ × Kevent))
    (q : Nat) (hJ : ∀ p ∈ h.defers, p.2.Seq ≠ q) (hk : ∀ c ∈ calls, c.2.Seq ≠ q) :
    (∀ p ∈ (runIntercept h calls).defers, p.2.Seq ≠ q) ∧
    ∃ new, (runIntercept h calls).deferredKevts = h.deferredKevts ++ new ∧
      ∀ e ∈ new, e.Seq ≠ q := by
  induction calls generalizing h with
  | nil => exact ⟨hJ, [], by simp [runIntercept], by simp⟩
  | cons c rest ih =>
    obtain ⟨s1, n1, e1, f1⟩ :=
      Intercept_seq_absent c.1 h c.2 q hJ (hk c (List.mem_cons_self _ _))
    obtain ⟨s2, n2, e2, f2⟩ := ih _ s1 (fun d hd => hk d (List.mem_cons_of_mem _ hd))
    rw [runIntercept_cons]
    refine ⟨s2, n1 ++ n2, ?_, ?_⟩
    · rw [e2, e1, List.append_assoc]
    · intro e he
      rcases List.mem_append.mp he with h0 | h0
      · exact f1 e h0
      · exact f2 e h0

theorem run_seq_only_at {σ : Type} (h : handleInterceptor σ)
    (calls : List (Env σ × Kevent)) (q object : Nat)
    (hI : ∀ p ∈ h.defers, p.2.Seq = q → p.1 = object) (hk : ∀ c ∈ calls, c.2.Seq ≠ q)
    (hnc : ∀ c ∈ calls, c.2.Typ = Ktype.CloseHandle →
      c.2.Kparams.GetHexAsUint64 kparams.HandleObject ≠ .ok object) :
    (∀ p ∈ (runIntercept h calls).defers, p.2.Seq = q → p.1 = object) ∧
    ∃ new, (runIntercept h calls).deferredKevts = h.deferredKevts ++ new ∧
      ∀ e ∈ new, e.Seq ≠ q := by
  induction calls generalizing h with
  | nil => exact ⟨hI, [], by simp [runIntercept], by simp⟩
  | cons c rest ih =>
    obtain ⟨s1, n1, e1, f1⟩ := Intercept_seq_only_at c.1 h c.2 q object hI
      (hk c (List.mem_cons_self _ _)) (hnc c (List.mem_cons_self _ _))
    obtain ⟨s2, n2, e2, f2⟩ := ih _ s1 (fun d hd => hk d (List.mem_cons_of_mem _ hd))
      (fun d hd => hnc d (List.mem_cons_of_mem _ hd))
    rw [runIntercept_cons]
    refine ⟨s2, n1 ++ n2, ?_, ?_⟩
    · rw [e2, e1, List.append_assoc]
    · intro e he
      rcases List.mem_append.mp he with h0 | h0
      · exact f1 e h0
      · exact f2 e h0

theorem PendingNamed_runIntercept {σ : Type} (h : handleInterceptor σ)
    (calls : List (Env σ × Kevent)) (hinv : PendingNamed h) :
    PendingNamed (runIntercept h calls) := by
  induction calls generalizing h with
  | nil => exact hinv
  | cons c rest ih =>
    rw [runIntercept_cons]
    exact ih _ (PendingNamed_Intercept c.1 h c.2 hinv)

theorem defersDelete_filter (defers : List (Nat × Kevent)) (object : Nat) :
    (defersDelete defers object).filter (fun p => decide (p.1 = object)) = [] := by
  rw [List.filter_eq_nil_iff]
  intro p hp
  simp only [defersDelete, List.mem_filter] at hp
  simpa using hp.2

theorem defersDelete_mem (defers : List (Nat × Kevent)) (object : Nat) (p : Nat × Kevent)
    (hp : p ∈ defersDelete defers object) : p ∈ defers ∧ p.1 ≠ object := by
  simp only [defersDelete, List.mem_filter] at hp
  exact ⟨hp.1, by simpa using hp.2⟩

/-! ## Two CreateHandle events for one object -/

/-- C11: let two CreateHandle events both be deferred under the same object address A,
with no CloseHandle for A processed between them. After the second call the deferred map
holds exactly one entry for A, and it is the second event; a following CloseHandle for A
sends the second event (with the name of the CloseHandle); and, sequence numbers being
unique, the first event is never sent, whatever calls follow. -/
theorem Intercept_second_create_wins {σ : Type} (env1 env2 env3 : Env σ)
    (h : handleInterceptor σ) (create1 create2 close : Kevent) (r1 r2 r3 : Enriched σ)
    (mid later : List (Env σ × Kevent))
    (hc1 : create1.Typ = Ktype.CreateHandle) (he1 : enrich env1 h create1 = .ok r1)
    (hn1 : r1.name = "")
    (ht1 : r1.typeName = handle.Key ∨ r1.typeName = handle.File ∨
      r1.typeName = handle.Desktop ∨ r1.typeName = handle.SymbolicLink)
    (hmid : ∀ c ∈ mid, c.2.Typ = Ktype.CloseHandle →
      c.2.Kparams.GetHexAsUint64 kparams.HandleObject ≠ .ok r1.object)
    (hc2 : create2.Typ = Ktype.CreateHandle)
    (he2 : enrich env2 (runIntercept (h.Intercept env1 create1).h mid) create2 = .ok r2)
    (hn2 : r2.name = "")
    (ht2 : r2.typeName = handle.Key ∨ r2.typeName = handle.File ∨
      r2.typeName = handle.Desktop ∨ r2.typeName = handle.SymbolicLink)
    (hobj2 : r2.object = r1.object)
    (hcl : close.Typ = Ktype.CloseHandle)
    (he3 : enrich env3
      ((runIntercept (h.Intercept env1 create1).h mid).Intercept env2 create2).h close = .ok r3)
    (hobj3 : r3.object = r1.object)
    (hu0 : ∀ p ∈ h.defers, p.2.Seq ≠ create1.Seq)
    (hu1 : ∀ c ∈ mid, c.2.Seq ≠ create1.Seq)
    (hu2 : create2.Seq ≠ create1.Seq) (hu3 : close.Seq ≠ create1.Seq)
    (hu4 : ∀ c ∈ later, c.2.Seq ≠ create1.Seq) :
    ((runIntercept (h.Intercept env1 create1).h mid).Intercept env2 create2).h.defers.filter
        (fun p => decide (p.1 = r1.object)) = [(r1.object, r2.kevt)] ∧
    (((runIntercept (h.Intercept env1 create1).h mid).Intercept env2 create2).h.Intercept
        env3 close).h.deferredKevts
      = ((runIntercept (h.Intercept env1 create1).h mid).Intercept env2
          create2).h.deferredKevts ++ [withName r2.kevt r3.name] ∧
    ∀ e ∈ emittedBy (h.Intercept env1 create1).h
        (mid ++ (env2, create2) :: (env3, close) :: later),
      e.Seq ≠ create1.Seq := by
  have hs2 := Intercept_create_defer_eq env2 _ create2 r2 hc2 he2 hn2 ht2
  obtain ⟨-, -, q2, -, -, -, -, n2⟩ := enrich_frame env2 _ create2 r2 he2
  obtain ⟨-, -, -, -, -, g2, -, -⟩ := enrich_frame env3 _ close r3 he3
  -- the state after the first call holds the first event under A only
  have hI1 : ∀ p ∈ (h.Intercept env1 create1).h.defers,
      p.2.Seq = create1.Seq → p.1 = r1.object := by
    intro p hp hq
    rw [Intercept_create_defer_eq env1 h create1 r1 hc1 he1 hn1 ht1] at hp
    simp only [defersStore, List.mem_cons] at hp
    rcases hp with hp | hp
    · rw [hp]
    · have := (defersDelete_mem _ _ _ hp).1
      rw [(enrich_frame env1 h create1 r1 he1).2.2.2.2.2.1] at this
      exact absurd hq (hu0 p this)
  obtain ⟨hImid, nmid, emid, fmid⟩ :=
    run_seq_only_at (h.Intercept env1 create1).h mid create1.Seq r1.object hI1 hu1 hmid
  -- the second call replaces the entry for A
  have hdef2 : ((runIntercept (h.Intercept env1 create1).h mid).Intercept env2
      create2).h.defers
      = defersStore (runIntercept (h.Intercept env1 create1).h mid).defers r1.object
          r2.kevt := by
    rw [hs2]
    show defersStore r2.h.defers r2.object r2.kevt = _
    rw [(enrich_frame env2 _ create2 r2 he2).2.2.2.2.2.1, hobj2]
  have hJ2 : ∀ p ∈ ((runIntercept (h.Intercept env1 create1).h mid).Intercept env2
      create2).h.defers, p.2.Seq ≠ create1.Seq := by
    intro p hp hq
    rw [hdef2] at hp
    simp only [defersStore, List.mem_cons] at hp
    rcases hp with hp | hp
    · rw [hp] at hq
      have : r2.kevt.Seq = create1.Seq := hq
      rw [q2] at this
      exact hu2 this
    · obtain ⟨hin, hne⟩ := defersDelete_mem _ _ _ hp
      exact hne (hImid p hin hq)
  have hem2 : ((runIntercept (h.Intercept env1 create1).h mid).Intercept env2
      create2).h.deferredKevts
      = (runIntercept (h.Intercept env1 create1).h mid).deferredKevts := by
    rw [hs2]
    exact (enrich_frame env2 _ create2 r2 he2).2.2.2.2.2.2.1
  obtain ⟨-, nlater, elater, flater⟩ :=
    run_seq_absent _ ((env3, close) :: later) create1.Seq hJ2 (by
      intro c hc
      rcases List.mem_cons.mp hc with h0 | h0
      · rw [h0]
        exact hu3
      · exact hu4 c h0)
  refine ⟨?_, ?_, ?_⟩
  · rw [hdef2]
    simp [defersStore, defersDelete_filter]
  · have hl : defersLookup r3.h.defers r3.object = some r2.kevt := by
      rw [g2, hobj3, hdef2]
      exact defersLookup_store _ _ _
    obtain ⟨-, m2, -, -⟩ := Intercept_close_matched_state env3 _ close r3 r2.kevt hcl he3 hl n2
    rw [m2, (enrich_frame env3 _ close r3 he3).2.2.2.2.2.2.1]
  · have hfinal : (runIntercept (h.Intercept env1 create1).h
        (mid ++ (env2, create2) :: (env3, close) :: later)).deferredKevts
        = (h.Intercept env1 create1).h.deferredKevts ++ (nmid ++ nlater) := by
      rw [runIntercept_append, runIntercept_cons, elater, hem2, emid, List.append_assoc]
    rw [emittedBy_eq _ _ _ hfinal]
    intro e he
    rcases List.mem_append.mp he with h0 | h0
    · exact fmid e h0
    · exact flater e h0

theorem Intercept_defers_sublist {σ : Type} (env : Env σ) (h : handleInterceptor σ)
    (kevt : Kevent) :
    List.Sublist (h.Intercept env kevt).h.defers h.defers ∨
    ∃ r, enrich env h kevt = .ok r ∧
      (h.Intercept env kevt).h.defers = (r.object, r.kevt) :: defersDelete h.defers r.object := by
  by_cases hty : kevt.Typ = Ktype.CreateHandle ∨ kevt.Typ = Ktype.CloseHandle
  · cases hen : enrich env h kevt with
    | error out =>
      rw [Intercept_of_enrich_error env h kevt out hty hen,
        (enrich_error_frame env h kevt out hen).2.1]
      exact Or.inl (List.Sublist.refl _)
    | ok r =>
      obtain ⟨f1, -, -, -, -, g2, -, -⟩ := enrich_frame env h kevt r hen
      rcases hty with hc | hc
      · by_cases hd : r.name = "" ∧ (r.typeName = handle.Key ∨ r.typeName = handle.File ∨
            r.typeName = handle.Desktop ∨ r.typeName = handle.SymbolicLink)
        · rw [Intercept_create_defer_eq env h kevt r hc hen hd.1 hd.2]
          refine Or.inr ⟨r, rfl, ?_⟩
          show defersStore r.h.defers r.object r.kevt = _
          rw [g2]
          rfl
        · rw [Intercept_create_write_eq env h kevt r hc hen hd]
          show List.Sublist r.h.defers h.defers ∨ _
          rw [g2]
          exact Or.inl (List.Sublist.refl _)
      · left
        cases hl : defersLookup r.h.defers r.object with
        | none =>
          rw [Intercept_close_unmatched_eq env h kevt r hc hen hl]
          show List.Sublist (sweep env.Now r.h).defers h.defers
          simp only [sweep, g2]
          exact List.filter_sublist _
        | some hk =>
          have hsub : (h.Intercept env kevt).h.defers = defersDelete r.h.defers r.object := by
            have hrt : ¬ r.kevt.Typ = Ktype.CreateHandle := by
              rw [f1, hc]
              decide
            unfold handleInterceptor.Intercept
            rw [if_pos (Or.inr hc)]
            simp only [hen]
            rw [if_neg hrt]
            simp only [hl]
            split
            · rfl
            · split
              · split <;> rfl
              · rfl
          rw [hsub, g2]
          exact List.filter_sublist _
  · have h1 : kevt.Typ ≠ Ktype.CreateHandle := fun hc => hty (Or.inl hc)
    have h2 : kevt.Typ ≠ Ktype.CloseHandle := fun hc => hty (Or.inr hc)
    rw [Intercept_other env h kevt h1 h2]
    exact Or.inl (List.Sublist.refl _)

theorem run_defers_seqs {σ : Type} (h : handleInterceptor σ)
    (calls : List (Env σ × Kevent))
    (hnd : (h.defers.map (fun p => p.2.Seq)).Nodup)
    (hfresh : ∀ p ∈ h.defers, ∀ c ∈ calls, c.2.Seq ≠ p.2.Seq)
    (hcalls : (calls.map (fun c => c.2.Seq)).Nodup) :
    ((runIntercept h calls).defers.map (fun p => p.2.Seq)).Nodup ∧
    ∀ p ∈ (runIntercept h calls).defers,
      p ∈ h.defers ∨ ∃ c ∈ calls, c.2.Seq = p.2.Seq := by
  induction calls generalizing h with
  | nil => exact ⟨hnd, fun p hp => Or.inl hp⟩
  | cons c rest ih =>
    rw [runIntercept_cons]
    simp only [List.map_cons, List.nodup_cons] at hcalls
    obtain ⟨hc_fresh, hrest⟩ := hcalls
    -- the pending events after the call on `c`
    have hstep_mem : ∀ p ∈ (h.Intercept c.1 c.2).h.defers, p ∈ h.defers ∨ p.2.Seq = c.2.Seq := by
      intro p hp
      rcases Intercept_defers_mem c.1 h c.2 p hp with hold | ⟨-, r, hen, hpe, -, -⟩
      · exact Or.inl hold
      · right
        rw [hpe]
        exact (enrich_frame c.1 h c.2 r hen).2.2.1
    have hstep_nd : ((h.Intercept c.1 c.2).h.defers.map (fun p => p.2.Seq)).Nodup := by
      rcases Intercept_defers_sublist c.1 h c.2 with hsub | ⟨r, hen, heq⟩
      · exact List.Nodup.sublist (hsub.map _) hnd
      · rw [heq]
        simp only [List.map_cons, List.nodup_cons]
        constructor
        · intro hmem
          obtain ⟨p, hp, hps⟩ := List.mem_map.mp hmem
          have hp2 := (defersDelete_mem _ _ _ hp).1
          have hq : r.kevt.Seq = c.2.Seq := (enrich_frame c.1 h c.2 r hen).2.2.1
          exact hfresh p hp2 c (List.mem_cons_self _ _) (by rw [← hq, ← hps])
        · exact List.Nodup.sublist ((List.filter_sublist _).map _) hnd
    have hstep_fresh : ∀ p ∈ (h.Intercept c.1 c.2).h.defers, ∀ d ∈ rest,
        d.2.Seq ≠ p.2.Seq := by
      intro p hp d hd
      rcases hstep_mem p hp with hold | hnew
      · exact hfresh p hold d (List.mem_cons_of_mem _ hd)
      · rw [hnew]
        intro heq
        exact hc_fresh (List.mem_map.mpr ⟨d, hd, heq⟩)
    obtain ⟨i1, i2⟩ := ih _ hstep_nd hstep_fresh hrest
    refine ⟨i1, ?_⟩
    intro p hp
    rcases i2 p hp with h0 | ⟨d, hd, hds⟩
    · rcases hstep_mem p h0 with hold | hnew
      · exact Or.inl hold
      · exact Or.inr ⟨c, List.mem_cons_self _ _, hnew.symm⟩
    · exact Or.inr ⟨d, List.mem_cons_of_mem _ hd, hds⟩

/-! ## Emission on the deferred-events channel -/

/-- C12: over every sequence of Intercept calls from a fresh interceptor, a call sends
an event on the deferred-events channel only if it handles a CloseHandle event whose
object address has a pending entry at that moment, and such a call (one that reaches the
lookup with its parameters decoded) sends exactly one event, the pending one with the
name set; a pending CreateHandle removed from the deferred map by the sweep is gone from
the map and, sequence numbers being unique in the stream, is sent by no later call. -/
theorem emission_discipline {σ : Type} (hsnap : σ) (typeStore : ObjectTypeStore)
    (deferredKevts : List Kevent) (calls : List (Env σ × Kevent)) (h : handleInterceptor σ)
    (hreach : h = runIntercept (newHandleInterceptor hsnap typeStore deferredKevts) calls)
    (env : Env σ) (kevt : Kevent) :
    ((h.Intercept env kevt).h.deferredKevts = h.deferredKevts ∨
      (kevt.Typ = Ktype.CloseHandle ∧ ∃ r hk, enrich env h kevt = .ok r ∧
        defersLookup h.defers r.object = some hk ∧
        (h.Intercept env kevt).h.deferredKevts = h.deferredKevts ++ [withName hk r.name])) ∧
    (∀ r hk, kevt.Typ = Ktype.CloseHandle → enrich env h kevt = .ok r →
      defersLookup h.defers r.object = some hk →
      (h.Intercept env kevt).h.deferredKevts = h.deferredKevts ++ [withName hk r.name]) ∧
    (∀ r p, kevt.Typ = Ktype.CloseHandle → enrich env h kevt = .ok r →
      defersLookup h.defers r.object = none → p ∈ h.defers →
      evict (env.Now p.1) p.2 = true →
      p ∉ (h.Intercept env kevt).h.defers ∧
      ∀ later, ((calls ++ (env, kevt) :: later).map (fun c => c.2.Seq)).Nodup →
        ∀ e ∈ emittedBy (h.Intercept env kevt).h later, e.Seq ≠ p.2.Seq) := by
  have hnamed : PendingNamed h := by
    rw [hreach]
    exact PendingNamed_runIntercept _ calls (PendingNamed_new _ _ _)
  refine ⟨Intercept_emits env h kevt, ?_, ?_⟩
  · intro r hk hc hen hl
    obtain ⟨-, -, -, -, -, g2, g3, -⟩ := enrich_frame env h kevt r hen
    have hl2 : defersLookup r.h.defers r.object = some hk := by rw [g2]; exact hl
    have hn := hnamed (r.object, hk) (defersLookup_mem _ _ _ hl)
    obtain ⟨-, m2, -, -⟩ := Intercept_close_matched_state env h kevt r hk hc hen hl2 hn
    rw [m2, g3]
  · intro r p hc hen hl hp hev
    obtain ⟨-, -, -, -, -, g2, -, -⟩ := enrich_frame env h kevt r hen
    have hl2 : defersLookup r.h.defers r.object = none := by rw [g2]; exact hl
    have hdef : (h.Intercept env kevt).h.defers
        = h.defers.filter (fun x => !evict (env.Now x.1) x.2) := by
      rw [Intercept_close_unmatched_eq env h kevt r hc hen hl2]
      show (sweep env.Now r.h).defers = _
      simp only [sweep, g2]
    have hgone : p ∉ (h.Intercept env kevt).h.defers := by
      rw [hdef]
      intro hmem
      have := (List.mem_filter.mp hmem).2
      simp [hev] at this
    refine ⟨hgone, ?_⟩
    intro later hnd e he
    have hsplit : (calls ++ (env, kevt) :: later).map (fun c => c.2.Seq)
        = calls.map (fun c => c.2.Seq) ++ (kevt.Seq :: later.map (fun c => c.2.Seq)) := by
      simp
    rw [hsplit] at hnd
    obtain ⟨hnd1, -, hdisj⟩ := List.nodup_append.mp hnd
    obtain ⟨hseqs, hprov⟩ := run_defers_seqs
      (newHandleInterceptor hsnap typeStore deferredKevts) calls
      (by simp [newHandleInterceptor]) (by simp [newHandleInterceptor]) hnd1
    rw [← hreach] at hseqs hprov
    -- the swept event stems from an earlier call
    obtain ⟨c0, hc0, hc0s⟩ : ∃ c ∈ calls, c.2.Seq = p.2.Seq := by
      rcases hprov p hp with h0 | h0
      · simp [newHandleInterceptor] at h0
      · exact h0
    have hJ : ∀ p' ∈ (h.Intercept env kevt).h.defers, p'.2.Seq ≠ p.2.Seq := by
      intro p' hp' heq
      rw [hdef] at hp'
      obtain ⟨hin, hkeep⟩ := List.mem_filter.mp hp'
      have hsame : p' = p := List.inj_on_of_nodup_map hseqs hin hp heq
      rw [hsame, hev] at hkeep
      simp at hkeep
    have hlater : ∀ c ∈ later, c.2.Seq ≠ p.2.Seq := by
      intro c hcl heq
      refine hdisj (List.mem_map.mpr ⟨c0, hc0, hc0s⟩) ?_
      exact List.mem_cons_of_mem _ (List.mem_map.mpr ⟨c, hcl, heq⟩)
    obtain ⟨-, new, hnew, hfresh⟩ := run_seq_absent _ later p.2.Seq hJ hlater
    rw [emittedBy_eq _ _ _ hnew] at he
    exact hfresh e he

/-- Instance of C12: `sampleCreate` is pending when `sampleCloseOther` arrives for another
object; the sweep removes it, and the later `sampleClose` for its object sends nothing
with its sequence number. -/
theorem emission_discipline_witness :
    (4096, sampleCreateEnriched)
      ∈ (runIntercept sampleState [(sampleEnv, sampleCreate)]).defers ∧
    (4096, sampleCreateEnriched)
      ∉ ((runIntercept sampleState [(sampleEnv, sampleCreate)]).Intercept sampleEnv
          sampleCloseOther).h.defers ∧
    ∀ e ∈ emittedBy ((runIntercept sampleState [(sampleEnv, sampleCreate)]).Intercept
        sampleEnv sampleCloseOther).h [(sampleEnv, sampleClose)], e.Seq ≠ 1 :=
  have key := (emission_discipline [] [(7, handle.File)] [] [(sampleEnv, sampleCreate)]
    (runIntercept sampleState [(sampleEnv, sampleCreate)]) rfl sampleEnv
    sampleCloseOther).2.2
    ⟨runIntercept sampleState [(sampleEnv, sampleCreate)], sampleCloseOtherEnriched, 8192,
      handle.File, "notes.txt"⟩
    (4096, sampleCreateEnriched) rfl rfl rfl (by decide) (by decide)
  ⟨by decide, key.1, key.2 [(sampleEnv, sampleClose)] (by decide)⟩

/-- Instance of C11: `sampleCreate` and `sampleCreateAgain` are both deferred under the
object `0x1000`; `sampleClose` then sends the second one. -/
theorem Intercept_second_create_wins_witness :
    ((runIntercept (sampleState.Intercept sampleEnv sampleCreate).h
        [(sampleEnv, sampleOther)]).Intercept sampleEnv sampleCreateAgain).h.defers.filter
        (fun p => decide (p.1 = 4096)) = [(4096, sampleCreateAgainEnriched)] ∧
    (((runIntercept (sampleState.Intercept sampleEnv sampleCreate).h
        [(sampleEnv, sampleOther)]).Intercept sampleEnv sampleCreateAgain).h.Intercept
        sampleEnv sampleClose).h.deferredKevts
      = [withName sampleCreateAgainEnriched "report.txt"] ∧
    ∀ e ∈ emittedBy (sampleState.Intercept sampleEnv sampleCreate).h
        ([(sampleEnv, sampleOther)] ++ (sampleEnv, sampleCreateAgain) ::
          (sampleEnv, sampleClose) :: []),
      e.Seq ≠ sampleCreate.Seq :=
  Intercept_second_create_wins sampleEnv sampleEnv sampleEnv sampleState sampleCreate
    sampleCreateAgain sampleClose
    ⟨sampleState, sampleCreateEnriched, 4096, handle.File, ""⟩
    ⟨runIntercept (sampleState.Intercept sampleEnv sampleCreate).h [(sampleEnv, sampleOther)],
      sampleCreateAgainEnriched, 4096, handle.File, ""⟩
    ⟨((runIntercept (sampleState.Intercept sampleEnv sampleCreate).h
        [(sampleEnv, sampleOther)]).Intercept sampleEnv sampleCreateAgain).h,
      sampleCloseEnriched, 4096, handle.File, "report.txt"⟩
    [(sampleEnv, sampleOther)] []
    rfl rfl rfl (Or.inr (Or.inl rfl))
    (by
      intro c hc hclose
      simp only [List.mem_singleton] at hc
      subst hc
      exact absurd hclose (by decide))
    rfl rfl rfl (Or.inr (Or.inl rfl)) rfl rfl rfl rfl
    (by intro p hp; simp [sampleState, newHandleInterceptor] at hp)
    (by
      intro c hc
      simp only [List.mem_singleton] at hc
      subst hc
      decide)
    (by decide) (by decide)
    (by intro c hc; simp at hc)

/-- Instance of C20: the event pending after `sampleCreate` satisfies the invariant. -/
theorem defers_invariant_witness :
    (4096, sampleCreateEnriched)
      ∈ (runIntercept (newHandleInterceptor ([] : List (Nat × Nat)) [(7, handle.File)] [])
          [(sampleEnv, sampleCreate)]).defers ∧
    sampleCreateEnriched.Typ = Ktype.CreateHandle ∧
    sampleCreateEnriched.Kparams.GetHexAsUint64 kparams.HandleObject = .ok 4096 ∧
    sampleCreateEnriched.Kparams.GetString kparams.HandleObjectName = .ok "" :=
  have key := defers_invariant ([] : List (Nat × Nat)) [(7, handle.File)] []
    [(sampleEnv, sampleCreate)] (4096, sampleCreateEnriched) (by decide)
  ⟨by decide, key.1, key.2.1, key.2.2.1⟩

/-! ## The object type identifier -/

theorem ObjectTypeStore.FindByID_RegisterType (store : ObjectTypeStore) (id : Nat)
    (name : String) : (store.RegisterType id name).FindByID id = name := by
  simp [ObjectTypeStore.FindByID, ObjectTypeStore.RegisterType, List.find?]

theorem Intercept_typeStore {σ : Type} (env : Env σ) (h : handleInterceptor σ)
    (kevt : Kevent) : (h.Intercept env kevt).h.typeStore = h.typeStore := by
  by_cases hty : kevt.Typ = Ktype.CreateHandle ∨ kevt.Typ = Ktype.CloseHandle
  · cases hen : enrich env h kevt with
    | error out =>
      rw [Intercept_of_enrich_error env h kevt out hty hen,
        (enrich_error_decode env h kevt out hen).1]
    | ok r =>
      have hr : r.h.typeStore = h.typeStore := by
        obtain ⟨-, -, -, e, -⟩ := enrich_inv env h kevt r hen
        rw [e]
      unfold handleInterceptor.Intercept
      rw [if_pos hty]
      simp only [hen]
      split
      · split
        · exact hr
        · exact hr
      · split
        · split
          · exact hr
          · split
            · split
              · exact hr
              · exact hr
            · exact hr
        · exact hr
  · have h1 : kevt.Typ ≠ Ktype.CreateHandle := fun hc => hty (Or.inl hc)
    have h2 : kevt.Typ ≠ Ktype.CloseHandle := fun hc => hty (Or.inr hc)
    rw [Intercept_other env h kevt h1 h2]

theorem enrich_typeName {σ : Type} (env : Env σ) (h : handleInterceptor σ) (kevt : Kevent)
    (r : Enriched σ) (typeID : Nat)
    (hid : kevt.Kparams.GetUint16 kparams.HandleObjectTypeID = .ok typeID)
    (hen : enrich env h kevt = .ok r) :
    r.typeName = h.typeStore.FindByID (typeID % 2 ^ 8) := by
  obtain ⟨-, t, -, p1, -, p3, -⟩ := enrich_kparams env h kevt r hen
  rw [p1] at hid
  simp only [Except.ok.injEq] at hid
  rw [← hid]
  exact p3

/-- C21: the type name Intercept resolves depends only on the low 8 bits of the event's
16-bit object-type id. For two type ids that are congruent modulo 256 the type
resolution looks up and registers the same type-cache entry (it is the same computation,
and after it the entry of the other id holds the resolved name), so two events carrying
these ids receive the same type name, be they resolved in the same state or one after
the other. -/
theorem type_name_low_byte {σ : Type} (env1 env2 : Env σ) (h : handleInterceptor σ)
    (kevt1 kevt2 : Kevent) (t1 t2 : Nat) (r1 r2 : Enriched σ)
    (hcong : t1 % 2 ^ 8 = t2 % 2 ^ 8)
    (hid1 : kevt1.Kparams.GetUint16 kparams.HandleObjectTypeID = .ok t1)
    (hid2 : kevt2.Kparams.GetUint16 kparams.HandleObjectTypeID = .ok t2)
    (he1 : enrich env1 h kevt1 = .ok r1)
    (he2 : enrich env2 (h.Intercept env1 kevt1).h kevt2 = .ok r2) :
    r1.typeName = h.typeStore.FindByID (t1 % 2 ^ 8) ∧
    r2.typeName = r1.typeName ∧
    (∀ r, enrich env2 h kevt2 = .ok r → r.typeName = r1.typeName) ∧
    (∀ kevt, resolveType env1 h kevt t1 = resolveType env1 h kevt t2) ∧
    (∀ kevt h1 typeName, resolveType env1 h kevt t1 = .ok (h1, typeName) →
      h1.typeStore.FindByID (t2 % 2 ^ 8) = typeName) := by
  have n1 := enrich_typeName env1 h kevt1 r1 t1 hid1 he1
  have n2 := enrich_typeName env2 _ kevt2 r2 t2 hid2 he2
  refine ⟨n1, ?_, ?_, ?_, ?_⟩
  · rw [n2, n1, Intercept_typeStore, hcong]
  · intro r hr
    rw [enrich_typeName env2 h kevt2 r t2 hid2 hr, n1, hcong]
  · intro kevt
    simp only [resolveType, hcong]
  · intro kevt h1 typeName hres
    rw [← hcong]
    by_cases hmiss : h.typeStore.FindByID (t1 % 2 ^ 8) = ""
    · simp only [resolveType, hmiss, if_true] at hres
      split at hres
      · simp at hres
      · split at hres
        · simp at hres
        · split at hres
          · simp at hres
          · simp only [Except.ok.injEq, Prod.mk.injEq] at hres
            obtain ⟨hh, ht⟩ := hres
            rw [← hh, ← ht]
            exact ObjectTypeStore.FindByID_RegisterType _ _ _
    · simp only [resolveType, hmiss, if_false, Except.ok.injEq, Prod.mk.injEq] at hres
      obtain ⟨hh, ht⟩ := hres
      rw [← hh]
      exact ht

/-- Instance of C21: type ids 7 and 263 have the same low byte; both events are given
the type name `File`. -/
theorem type_name_low_byte_witness :
    7 % 2 ^ 8 = 263 % 2 ^ 8 ∧
    sampleCreate.Kparams.GetUint16 kparams.HandleObjectTypeID = .ok 7 ∧
    sampleCloseWide.Kparams.GetUint16 kparams.HandleObjectTypeID = .ok 263 ∧
    enrich sampleEnv (sampleState.Intercept sampleEnv sampleCreate).h sampleCloseWide
      = .ok ⟨(sampleState.Intercept sampleEnv sampleCreate).h, sampleCloseWideEnriched, 4096,
          handle.File, "report.txt"⟩ ∧
    handle.File = sampleState.typeStore.FindByID (7 % 2 ^ 8) :=
  have key := type_name_low_byte sampleEnv sampleEnv sampleState sampleCreate
    sampleCloseWide 7 263
    ⟨sampleState, sampleCreateEnriched, 4096, handle.File, ""⟩
    ⟨(sampleState.Intercept sampleEnv sampleCreate).h, sampleCloseWideEnriched, 4096,
      handle.File, "report.txt"⟩ (by decide) rfl rfl rfl rfl
  ⟨by decide, rfl, rfl, rfl, key.1⟩

/-! ## Text of a thread -/

theorem Thread_String_ignores_KstackLimit (hex : Nat → String) (t : Thread) (limit : Nat) :
    Thread.String hex { t with KstackLimit := limit } = Thread.String hex t := rfl

/-- C22 (the code at the failing input): for a thread whose kernel stack limit is
`0x2000` and whose user stack limit is `0x1000`, the text after the label
`Kstack limit: ` is `0x1000`, the user stack limit, because line 183 passes
`t.UstackLimit` for that verb as well; the text after `Ustack limit: ` is the user stack
limit as claimed. -/
theorem Thread_String_kstack_limit :
    sampleHex sampleThread.KstackLimit = "0x2000" ∧
    sampleHex sampleThread.UstackLimit = "0x1000" ∧
    Thread.String sampleHex sampleThread
      = "ID: 1 IO prio: 2, Base prio: 8, Page prio: 5, Ustack base: 0x3000, " ++
        "Ustack limit: 0x1000, Kstack base: 0x5000, Kstack limit: 0x1000, " ++
        "Entrypoint: 0x6000" := by
  decide

end Fibratus
